import Mathlib

/-!
Verification development for the Shark run-cycle orchestrator.

Strings from the TypeScript source are modelled as `List Char` (`Str`)
so that the line/character level behaviour of the plan parser, the Slack
instruction classifier and the plan writer can be reasoned about
directly.  Character classes (`\s`, `[a-z0-9-]`, the `.` of a JS regex)
are modelled on the character ranges the orchestrator actually
manipulates (ASCII text plus explicit line separators), matching the
JavaScript semantics on those ranges.
-/

namespace Shark

abbrev Str := List Char

/-- Whitespace as matched by the JS `\s` class on the ASCII range. -/
def isJsWs (c : Char) : Bool :=
  c = ' ' || c = '\t' || c = '\n' || c = '\r' || c = '\x0b' || c = '\x0c'

/-- ASCII lower-casing, the fragment of `String.prototype.toLowerCase`
exercised by the orchestrator. -/
def asciiLower (c : Char) : Char :=
  if 'A' ≤ c ∧ c ≤ 'Z' then Char.ofNat (c.toNat + 32) else c

def lowerStr (s : Str) : Str := s.map asciiLower

def isDigitCh (c : Char) : Bool := '0' ≤ c && c ≤ '9'

/-- The `[a-z0-9-]` class of the plan-line grammar. -/
def isIdChar (c : Char) : Bool :=
  ('a' ≤ c && c ≤ 'z') || isDigitCh c || c = '-'

/-- The `.` of a JS regex without the `s` flag: any character except a
line terminator. -/
def isDotChar (c : Char) : Bool :=
  !(c = '\n' || c = '\r' || c = '\u2028' || c = '\u2029')

/-- Is `p` a prefix of `s`. -/
def isPre : Str → Str → Bool
  | [], _ => true
  | _ :: _, [] => false
  | p :: ps, c :: cs => p = c && isPre ps cs

/-- Does `hay` contain `needle` as a contiguous substring
(`String.prototype.includes`). -/
def containsSub (needle : Str) (hay : Str) : Bool :=
  if isPre needle hay then true
  else match hay with
    | [] => false
    | _ :: cs => containsSub needle cs

def endsWithCh (c : Char) (s : Str) : Bool :=
  s.getLast? = some c

def trimL (s : Str) : Str := s.dropWhile isJsWs

def trimR (s : Str) : Str := (s.reverse.dropWhile isJsWs).reverse

/-- `String.prototype.trim`. -/
def trimStr (s : Str) : Str := trimL (trimR s)

/-- `replace(/\s+/g, " ")`: each maximal whitespace run becomes one
space (the run's characters are dropped one by one until its last,
which becomes the single space). -/
def collapseWs : Str → Str
  | [] => []
  | [c] => if isJsWs c then [' '] else [c]
  | a :: b :: rest =>
    if isJsWs a then
      if isJsWs b then collapseWs (b :: rest)
      else ' ' :: collapseWs (b :: rest)
    else a :: collapseWs (b :: rest)

/-- `split(/\r?\n/)`: a separator is `\r\n` or a bare `\n`; a `\r` not
followed by `\n` is ordinary content. -/
def splitLines : Str → List Str
  | [] => [[]]
  | '\r' :: '\n' :: rest => [] :: splitLines rest
  | '\n' :: rest => [] :: splitLines rest
  | c :: rest =>
    match splitLines rest with
    | [] => [[c]]
    | l :: ls => (c :: l) :: ls

/-- `Array.prototype.join("\n")`. -/
def joinLF : List Str → Str
  | [] => []
  | [l] => l
  | l :: ls => l ++ '\n' :: joinLF ls

/-- `String.prototype.replace` with a plain-string pattern: replace the
first occurrence of `pat` by `rep`. -/
def replaceFirst (pat rep : Str) (s : Str) : Str :=
  if isPre pat s then rep ++ s.drop pat.length
  else match s with
    | [] => []
    | c :: cs => c :: replaceFirst pat rep cs

/-! ### Data model (contracts.ts) -/

inductive SharkMode
  | discovery | planning | building | operating | blocked
deriving DecidableEq, Repr

/-- `SHARK_MODES` from contracts.ts. -/
def SHARK_MODES : List SharkMode :=
  [.discovery, .planning, .building, .operating, .blocked]

/-- `Task.mode` has TS type `Exclude<SharkMode, "blocked">`. -/
inductive TaskMode
  | discovery | planning | building | operating
deriving DecidableEq, Repr

def TaskMode.toShark : TaskMode → SharkMode
  | .discovery => .discovery
  | .planning => .planning
  | .building => .building
  | .operating => .operating

inductive TaskStatus
  | pending | in_progress | completed | failed
deriving DecidableEq, Repr

inductive TaskKind
  | research | memory | messaging | deployment | operations | artifact
deriving DecidableEq, Repr

inductive ApprovalStatus
  | pending | approved | rejected
deriving DecidableEq, Repr

structure Task where
  id : Str
  title : Str
  description : Str
  kind : TaskKind
  mode : TaskMode
  priority : Nat
  blockedByApproval : Bool
  status : TaskStatus
  output : Option Str := none
  updatedAt : Str
deriving DecidableEq, Repr

structure OpportunityScore where
  marketSize : Int
  speedToLaunch : Int
  defensibility : Int
  aiLeverage : Int
  distributionPotential : Int
  composite : Int
deriving DecidableEq, Repr

structure VentureThesis where
  id : Str
  headline : Str
  targetCustomer : Str
  problem : Str
  productShape : Str
  whyNow : Str
  moatHypothesis : Str
  score : OpportunityScore
  selectedAt : Str
deriving DecidableEq, Repr

structure ApprovalRequest where
  id : Str
  action : Str
  reason : Str
  status : ApprovalStatus
  requestedAt : Str
deriving DecidableEq, Repr

structure OperatorCommand where
  id : Str
  source : Str
  text : Str
  createdAt : Str
deriving DecidableEq, Repr

inductive EventKind
  | mode_changed | task_started | task_completed | task_failed | tool_called
  | deployment | public_post | approval_requested | operator_command
  | status_update
deriving DecidableEq, Repr

/-- A value of the TS metadata record `Record<string, string | number |
boolean>`. -/
inductive MetaVal
  | str (s : Str)
  | num (n : Int)
  | bool (b : Bool)
deriving DecidableEq, Repr

structure SharkEvent where
  id : Str
  kind : EventKind
  message : Str
  timestamp : Str
  metadata : Option (List (Str × MetaVal)) := none
deriving DecidableEq, Repr

structure ProviderHealth where
  ok : Bool
  checkedAt : Str
  message : Str
deriving DecidableEq, Repr

structure RunState where
  runId : Str
  mode : SharkMode
  thesis : Option VentureThesis := none
  currentTask : Option Task := none
  pendingApproval : Option ApprovalRequest := none
  mailboxAddress : Option Str := none
  tasks : List Task
  queuedCommands : List OperatorCommand
  recentEvents : List SharkEvent
  providerHealth : List (Str × ProviderHealth)
  lastSummary : Option Str := none
  isRunning : Bool
  lastIterationAt : Option Str := none
  startedAt : Option Str := none
  totalAgentTurns : Option Int := none
deriving DecidableEq, Repr

/-- `metadata?.key` lookup. -/
def metaLookup (m : Option (List (Str × MetaVal))) (key : Str) : Option MetaVal :=
  match m with
  | none => none
  | some entries => (entries.find? (fun e => e.1 == key)).map (·.2)

def modeStr : SharkMode → Str
  | .discovery => "discovery".data
  | .planning => "planning".data
  | .building => "building".data
  | .operating => "operating".data
  | .blocked => "blocked".data

/-- `SHARK_MODES.includes(value)` on a string. -/
def strToMode (s : Str) : Option SharkMode :=
  SHARK_MODES.find? (fun m => modeStr m == s)

/-! ### Plan-line grammar (engine.ts `parsePlanLine`)

One task per line: `- [ ] id | tool | title | description` where the
regex is `^- \[( |x)\] ([a-z0-9-]+) \| ([a-z0-9-]+) \| ([^|]+) \| (.+)$`.
The id and tool runs are maximal (their class excludes the space that
must follow), the title group stops at the first `|` of the remainder
and must leave a space before it, and the description runs to the end
of the line with every character matching the JS `.` class. -/

structure PlanParsed where
  checked : Bool
  id : Str
  preferredTool : Str
  title : Str
  description : Str
deriving DecidableEq, Repr

/-- The groups `([a-z0-9-]+) \| ([a-z0-9-]+) \| ([^|]+) \| (.+)$` of
the plan-line regex, parsed from what follows the checkbox marker:
id, tool, title and description (each `.trim()`ed as in the source). -/
def parsePlanBody (rest : Str) : Option (Str × Str × Str × Str) :=
  let idRun := rest.takeWhile isIdChar
  match idRun, rest.drop idRun.length with
  | _ :: _, ' ' :: '|' :: ' ' :: r2 =>
    let toolRun := r2.takeWhile isIdChar
    match toolRun, r2.drop toolRun.length with
    | _ :: _, ' ' :: '|' :: ' ' :: u =>
      let a := u.takeWhile (fun c => c ≠ '|')
      match u.drop a.length with
      | '|' :: ' ' :: desc =>
        if a.getLast? = some ' ' && 2 ≤ a.length
            && !desc.isEmpty && desc.all isDotChar then
          some (trimStr idRun, trimStr toolRun, trimStr a.dropLast, trimStr desc)
        else none
      | _ => none
    | _, _ => none
  | _, _ => none

def parsePlanLine (line : Str) : Option PlanParsed :=
  match line with
  | '-' :: ' ' :: '[' :: mark :: ']' :: ' ' :: rest =>
    if mark = ' ' || mark = 'x' then
      (parsePlanBody rest).map fun g =>
        { checked := mark = 'x'
          id := g.1
          preferredTool := g.2.1
          title := g.2.2.1
          description := g.2.2.2 }
    else none
  | _ => none

/-- `taskKindForTool` from engine.ts. -/
def taskKindForTool (tool : Str) : TaskKind :=
  if tool = "browser-use".data then .research
  else if tool = "supermemory".data then .memory
  else if tool = "slack".data then .messaging
  else if tool = "vercel".data then .deployment
  else if tool = "sdk".data then .artifact
  else .operations

structure PlanTaskEntry where
  task : Task
  preferredTool : Str
deriving DecidableEq, Repr

/-- The entry built for the `index`-th parsed plan line
(`readPlanEntries`'s `parsed.map((entry, index) => ...)`); `now` stands
for `new Date().toISOString()`. -/
def planEntryOfParsed (now : Str) (index : Nat) (p : PlanParsed) : PlanTaskEntry :=
  { preferredTool := p.preferredTool
    task := {
      id := p.id
      title := p.title
      description := p.description
      kind := taskKindForTool p.preferredTool
      mode := .building
      priority := max 1 (100 - index)
      blockedByApproval := p.preferredTool == "human".data
      status := if p.checked then .completed else .pending
      output := none
      updatedAt := now } }

/-- `SharkEngine.readPlanEntries` on the raw plan document: split on
`\r?\n`, parse each line, drop the lines that do not match, and number
the surviving entries. (The engine returns `[]` when the plan file is
missing; callers pass the file contents here.) -/
def readPlanEntries (raw : Str) (now : Str) : List PlanTaskEntry :=
  ((splitLines raw).filterMap parsePlanLine).mapIdx
    (fun i p => planEntryOfParsed now i p)

/-! ### Run-state operations (state.ts)

The TypeScript operations obtain event ids from `Math.random` and
timestamps from `new Date()`; those environment values appear here as
explicit parameters (`eid`, `ts`, `ua`) of each operation. -/

def createInitialRunState (runId : Str) : RunState :=
  { runId := runId
    mode := .discovery
    tasks := []
    queuedCommands := []
    recentEvents := []
    providerHealth := []
    isRunning := false }

/-- `extractMode` from state.ts: a metadata value that is a string
naming a mode, else `discovery`. -/
def extractMode (value : Option MetaVal) : SharkMode :=
  match value with
  | some (.str s) => (strToMode s).getD .discovery
  | _ => .discovery

def nextModeKey : Str := "nextMode".data

/-- `withEvent` from state.ts: prepend the event to the capped log and,
for a `mode_changed` event, move `mode` to the mode its metadata
names. -/
def withEvent (state : RunState) (event : SharkEvent) : RunState :=
  let recentEvents := (event :: state.recentEvents).take 50
  let nextMode :=
    if event.kind = .mode_changed then
      extractMode (metaLookup event.metadata nextModeKey)
    else state.mode
  { state with
      mode := nextMode
      recentEvents := recentEvents
      lastIterationAt := some event.timestamp }

/-- `transitionMode` from state.ts. -/
def transitionMode (eid ts : Str) (state : RunState) (nextMode : SharkMode) : RunState :=
  if SHARK_MODES.contains nextMode then
    withEvent state
      { id := eid
        kind := .mode_changed
        message := "Mode changed to ".data ++ modeStr nextMode
        timestamp := ts
        metadata := some [(nextModeKey, .str (modeStr nextMode))] }
  else state

/-- `beginTask` from state.ts. -/
def beginTask (eid ua ts : Str) (state : RunState) (task : Task) : RunState :=
  let next : RunState :=
    { state with
        currentTask := some { task with status := .in_progress, updatedAt := ua }
        tasks := state.tasks.map fun item =>
          if item.id == task.id then
            { item with status := .in_progress, updatedAt := ua }
          else item }
  withEvent next
    { id := eid
      kind := .task_started
      message := "Started task: ".data ++ task.title
      timestamp := ts
      metadata := some [("taskId".data, .str task.id),
                        ("priority".data, .num task.priority)] }

/-- `completeTask` from state.ts. -/
def completeTask (eid ua ts : Str) (state : RunState) (summary : Str) : RunState :=
  match state.currentTask with
  | none => state
  | some current =>
    let next : RunState :=
      { state with
          currentTask := some
            { current with status := .completed, output := some summary, updatedAt := ua }
          tasks := state.tasks.map fun item =>
            if item.id == current.id then
              { item with status := .completed, output := some summary, updatedAt := ua }
            else item }
    withEvent next
      { id := eid
        kind := .task_completed
        message := summary
        timestamp := ts
        metadata := some [("taskId".data, .str current.id)] }

/-- Modelled from the spec: `failTask` is imported by engine.ts from
state.ts but its definition is not among the repository's files. Per
§4.4 the failure classification drives whether the task is marked
`completed` or `failed`; `failTask` is therefore modelled as the
`failed` counterpart of `completeTask`, recording the result text and a
`task_failed` event. -/
def failTask (eid ua ts : Str) (state : RunState) (summary : Str) : RunState :=
  match state.currentTask with
  | none => state
  | some current =>
    let next : RunState :=
      { state with
          currentTask := some
            { current with status := .failed, output := some summary, updatedAt := ua }
          tasks := state.tasks.map fun item =>
            if item.id == current.id then
              { item with status := .failed, output := some summary, updatedAt := ua }
            else item }
    withEvent next
      { id := eid
        kind := .task_failed
        message := summary
        timestamp := ts
        metadata := some [("taskId".data, .str current.id)] }

/-- `blockForApproval` from state.ts: sets `mode` to `blocked` directly
and records an `approval_requested` event. -/
def blockForApproval (eid : Str) (state : RunState) (approval : ApprovalRequest) : RunState :=
  let next : RunState :=
    { state with mode := .blocked, pendingApproval := some approval }
  withEvent next
    { id := eid
      kind := .approval_requested
      message := approval.reason
      timestamp := approval.requestedAt
      metadata := some [("approvalId".data, .str approval.id),
                        ("action".data, .str approval.action)] }

/-- `queueTask` from state.ts: append and stable-sort by descending
priority (JS `Array.prototype.sort` is stable). -/
def queueTask (state : RunState) (task : Task) : RunState :=
  { state with
      tasks := (state.tasks ++ [task]).mergeSort
        (fun left right => right.priority ≤ left.priority) }

/-- `setProviderHealth` from state.ts: record update of the partial
health map, modelled as an association list keyed by tool name. -/
def setProviderHealth (state : RunState) (tool : Str) (health : ProviderHealth) : RunState :=
  { state with
      providerHealth :=
        (state.providerHealth.filter (fun e => e.1 ≠ tool)) ++ [(tool, health)] }

/-- `enqueueCommand` from state.ts. -/
def enqueueCommand (state : RunState) (command : OperatorCommand) : RunState :=
  { state with queuedCommands := state.queuedCommands ++ [command] }

/-- `clearCommands` from state.ts. -/
def clearCommands (state : RunState) : RunState :=
  { state with queuedCommands := [] }

/-! ### Mode transition function (loop.ts `defaultNextMode`) -/

def defaultNextMode (state : RunState) : SharkMode :=
  match state.thesis with
  | none => .discovery
  | some _ =>
    if (state.pendingApproval.map (·.status)) = some .pending then .blocked
    else
      match state.currentTask with
      | some t => if t.status = .in_progress then t.mode.toShark else .planning
      | none => .planning

/-! ### Engine initialisation (engine.ts `init`) -/

/-- The six adapter/config health probes `seedStaticHealth` consults;
their values come from the environment and are inputs here. -/
structure StaticHealthInputs where
  slack : ProviderHealth
  supermemory : ProviderHealth
  agentmail : ProviderHealth
  vercel : ProviderHealth
  anthropic : ProviderHealth
  daytona : ProviderHealth

/-- `seedStaticHealth` from engine.ts. -/
def seedStaticHealth (state : RunState) (h : StaticHealthInputs) : RunState :=
  let next := setProviderHealth state ("slack".data) h.slack
  let next := setProviderHealth next ("supermemory".data) h.supermemory
  let next := setProviderHealth next ("agentmail".data) h.agentmail
  let next := setProviderHealth next ("vercel".data) h.vercel
  let next := setProviderHealth next ("anthropic".data) h.anthropic
  setProviderHealth next ("daytona".data) h.daytona

/-- `SharkEngine.init` after `store.load()` has produced `loaded`:
repair a falsy `startedAt` (with `derivedStart` standing for
`deriveRunStartedAt`'s time-dependent result), repair a missing/NaN
`totalAgentTurns` (`none` models both), force `isRunning := false`, and
seed static provider health. -/
def initState (loaded : RunState) (derivedStart : Str) (h : StaticHealthInputs) : RunState :=
  let s1 :=
    if loaded.startedAt = none ∨ loaded.startedAt = some [] then
      { loaded with startedAt := some derivedStart }
    else loaded
  let s2 :=
    match s1.totalAgentTurns with
    | none => { s1 with totalAgentTurns := some 0 }
    | some n => { s1 with totalAgentTurns := some n }
  let s3 := { s2 with isRunning := false }
  seedStaticHealth s3 h

/-! ### Cycle scheduler (engine.ts `runOnce`)

`runOnce` and the `finally` block of the active cycle run on the
single-threaded JS event loop, so each is modelled as one atomic step
over the pair (`activeCycle`, `pendingCycleTrigger`). -/

inductive Trigger
  | manual | interval | startup | interrupt
deriving DecidableEq, Repr

structure Sched where
  activeCycle : Option Trigger
  pendingCycleTrigger : Option Trigger
deriving DecidableEq, Repr

/-- The slot update `if (!this.pendingCycleTrigger || trigger !==
"interval") this.pendingCycleTrigger = trigger`. -/
def recordTrigger (pending : Option Trigger) (t : Trigger) : Option Trigger :=
  if pending = none ∨ t ≠ .interval then some t else pending

/-- One `runOnce(trigger)` call: while a cycle is active it only records
the trigger; otherwise it starts a cycle. The boolean reports whether a
new cycle started. -/
def runOnceEnter (s : Sched) (t : Trigger) : Sched × Bool :=
  match s.activeCycle with
  | some _ =>
    ({ s with pendingCycleTrigger := recordTrigger s.pendingCycleTrigger t }, false)
  | none =>
    ({ activeCycle := some t, pendingCycleTrigger := s.pendingCycleTrigger }, true)

/-- A sequence of `runOnce` calls arriving in order. -/
def arrivals (s : Sched) (ts : List Trigger) : Sched :=
  ts.foldl (fun s t => (runOnceEnter s t).1) s

/-- The `finally` block when the active cycle settles: clear
`activeCycle`, take and clear the pending slot, and when a trigger was
recorded re-enter `runOnce` with it. The second component is the
trigger of the follow-up cycle that started, if any. -/
def cycleFinish (s : Sched) : Sched × Option Trigger :=
  let cleared : Sched := { activeCycle := none, pendingCycleTrigger := none }
  match s.pendingCycleTrigger with
  | some t => ((runOnceEnter cleared t).1, some t)
  | none => (cleared, none)

/-! ### Plan synchronizer (engine.ts) -/

/-- `new Map(tasks.map(t => [t.id, t])).get(id)`: for a duplicated id
the later entry wins. -/
def mapGetLast (tasks : List Task) (id : Str) : Option Task :=
  (tasks.filter (fun t => t.id == id)).getLast?

/-- The arrow function inside `syncTasksFromPlan`'s `entries.map`. -/
def syncOne (tasks : List Task) (currentTask : Option Task)
    (entry : PlanTaskEntry) : Task :=
  let nextTask :=
    match mapGetLast tasks entry.task.id with
    | some existing => { entry.task with output := existing.output }
    | none => entry.task
  if (currentTask.map (·.id)) = some nextTask.id ∧ nextTask.status = .pending then
    { nextTask with status := .in_progress }
  else nextTask

/-- `SharkEngine.syncTasksFromPlan`, as a function of the in-memory
task list, the current task and the parsed entries. -/
def syncTasksFromPlan (tasks : List Task) (currentTask : Option Task)
    (entries : List PlanTaskEntry) : List Task :=
  entries.map (syncOne tasks currentTask)

/-- The engine's `this.syncTasksFromPlan(entries)` statement. -/
def syncState (state : RunState) (entries : List PlanTaskEntry) : RunState :=
  { state with tasks := syncTasksFromPlan state.tasks state.currentTask entries }

/-- One line of `SharkEngine.markPlanTaskCompleted`'s map: flip the
checkbox of an unchecked task line whose id is `taskId`. -/
def flipLine (taskId : Str) (line : Str) : Str :=
  match parsePlanLine line with
  | none => line
  | some parsed =>
    if parsed.id == taskId && !parsed.checked then
      replaceFirst ("- [ ]".data) ("- [x]".data) line
    else line

/-- Did `flipLine` rewrite this line (the `updated` flag). -/
def planLineFlips (taskId : Str) (line : Str) : Bool :=
  match parsePlanLine line with
  | none => false
  | some parsed => parsed.id == taskId && !parsed.checked

/-- `SharkEngine.markPlanTaskCompleted` on the raw document: the
rejoined document and the `updated` flag deciding whether it is
written. -/
def markPlanTaskCompleted (raw taskId : Str) : Str × Bool :=
  let lines := splitLines raw
  (joinLF (lines.map (flipLine taskId)), lines.any (planLineFlips taskId))

/-- The plan file's contents after `markPlanTaskCompleted`: the rewrite
is only written back when a line was flipped. -/
def planDocAfterMark (raw taskId : Str) : Str :=
  let r := markPlanTaskCompleted raw taskId
  if r.2 then r.1 else raw

/-! ### Whole-document replacement (part_001 `extractPlanText`,
`materializePlanFromAgentText`) -/

def fenceMark : Str := "```".data

/-- The body of `extractPlanText`'s loop over the response's lines,
carrying `sawTaskLine` and the accumulated `planLines`. -/
def extractPlanLoop : List Str → Bool → List Str → List Str
  | [], _, acc => acc
  | l :: ls, saw, acc =>
    let trimmed := trimR l
    let compact := trimStr trimmed
    if compact.isEmpty then
      if saw && !(acc.getLast? == some ([] : Str)) then
        extractPlanLoop ls saw (acc ++ [[]])
      else extractPlanLoop ls saw acc
    else if isPre fenceMark compact then extractPlanLoop ls saw acc
    else if (parsePlanLine compact).isSome then extractPlanLoop ls true (acc ++ [compact])
    else extractPlanLoop ls saw acc

/-- The trailing `while (planLines[last] === "") planLines.pop()`. -/
def dropTrailingEmpty (ls : List Str) : List Str :=
  (ls.reverse.dropWhile (·.isEmpty)).reverse

/-- `extractPlanText`: reduce a decision-engine response to task lines
and blank separators; empty string when no task line survives. -/
def extractPlanText (raw : Str) : Str :=
  let planLines := dropTrailingEmpty (extractPlanLoop (splitLines raw) false [])
  if planLines.isEmpty then [] else joinLF planLines ++ ['\n']

/-- `materializePlanFromAgentText`: `none` models the early return with
no write (`extractPlanText` came back empty); otherwise the written
document and the entries re-read from it. -/
def materializePlanFromAgentText (text now : Str) : Option (Str × List PlanTaskEntry) :=
  let planText := extractPlanText text
  if planText.isEmpty then none
  else some (planText, readPlanEntries planText now)

/-! ### Interrupt classifier (part_001 Slack handling) -/

/-- The leading `[\s•\-\*•]` class. -/
def bulletChar (c : Char) : Bool :=
  isJsWs c || c = '•' || c = '-' || c = '*'

/-- `replace(/^\d+[\.\)]\s+/, "")`. -/
def stripNumberPre (s : Str) : Str :=
  let ds := s.takeWhile isDigitCh
  if ds.isEmpty then s
  else
    match s.drop ds.length with
    | c :: rest =>
      if (c = '.' || c = ')') && (match rest with | r :: _ => isJsWs r | [] => false) then
        rest.dropWhile isJsWs
      else s
    | [] => s

/-- `normalizeOperatorSlackText`. -/
def normalizeOperatorSlackText (text : Str) : Str :=
  trimStr (collapseWs (stripNumberPre (text.dropWhile bulletChar)))

def questionStarters : List Str :=
  ["what ", "where ", "why ", "how ", "when ", "which ", "who ", "is ", "are ",
   "can you tell me", "do you know"].map String.data

/-- `isExplicitSlackQuestion` on the lower-cased normalized text. -/
def isExplicitSlackQuestion (normalized : Str) : Bool :=
  if normalized.isEmpty then false
  else if normalized = "pause".data ∨ normalized = "resume".data then false
  else if endsWithCh '?' normalized then true
  else questionStarters.any (fun starter => isPre starter normalized)

/-- `replace(/^(and|then)\s+/i, "")` helper: strip `w` (matched
case-insensitively) and the following whitespace run. -/
def stripCtlWord (w : Str) (remainder : Str) : Option Str :=
  if isPre w (lowerStr remainder) then
    match remainder.drop w.length with
    | r :: rest => if isJsWs r then some ((r :: rest).dropWhile isJsWs) else none
    | [] => none
  else none

def stripAndThen (remainder : Str) : Str :=
  match stripCtlWord ("and".data) remainder with
  | some r => r
  | none =>
    match stripCtlWord ("then".data) remainder with
    | some r => r
    | none => remainder

structure ControlDirective where
  followUp : Option Str
deriving DecidableEq, Repr

/-- `extractSlackControlDirective`. -/
def extractSlackControlDirective (text command : Str) : Option ControlDirective :=
  let normalized := trimStr (collapseWs text)
  let lower := lowerStr normalized
  if lower = command then some { followUp := none }
  else if !(isPre (command ++ [' ']) lower) then none
  else
    let remainder := trimStr (normalized.drop command.length)
    let followUp := trimStr (stripAndThen remainder)
    some { followUp := if followUp.isEmpty then none else some followUp }

/-- `markAgentTurns`: `turns = none` models a missing/NaN/non-positive
turn count. -/
def markAgentTurns (turns : Option Int) (state : RunState) : RunState :=
  match turns with
  | some n =>
    if n ≤ 0 then state
    else { state with totalAgentTurns := state.totalAgentTurns.map (· + n) }
  | none => state

/-- `enqueueOperatorCommand` from engine.ts; `cmdId`/`now`/`eid` stand
for the generated command id, timestamps and event id. -/
def enqueueOperatorCommand (cmdId now eid : Str) (source : Str)
    (state : RunState) (text : Str) : RunState :=
  let s1 := enqueueCommand state
    { id := cmdId, source := source, text := text, createdAt := now }
  withEvent s1
    { id := eid
      kind := .operator_command
      message := "Operator command received: ".data ++ text
      timestamp := now
      metadata := some [("source".data, .str source)] }

/-- `start()`: a no-op when the interval timer already exists. -/
def startLoop (timer : Bool) (state : RunState) : Bool × RunState :=
  if timer then (timer, state) else (true, { state with isRunning := true })

/-- `stop()`. -/
def stopLoop (_timer : Bool) (state : RunState) : Bool × RunState :=
  (false, { state with isRunning := false })

/-- The environment values `handleSlackInstruction` consumes: generated
ids and timestamps, and whether `interruptActiveAgentWork()` aborted an
in-flight agent call. -/
structure SlackEnv where
  cmdId : Str
  now : Str
  eid : Str
  eid2 : Str
  eid3 : Str
  interrupted : Bool

/-- Which reply path `handleSlackInstruction` takes. For a question the
engine returns `composeSlackQuestionReply(cleanedText)`, an immediate
answer synthesized from the current run state, without queueing. -/
inductive SlackOutcome
  | questionReply (cleanedText : Str)
  | pausedAck
  | resumedAck
  | handledLive (cleanedText : Str)
  | handledQueued (cleanedText : Str)
deriving DecidableEq, Repr

def slackSource : Str := "slack".data

/-- `SharkEngine.handleSlackInstruction` (part_001 lines 765-832) as a
function of the run state and interval-timer flag. Scheduler re-entry
(`runOnce("interrupt")`) acts on the scheduler state of `Sched`, not on
`RunState`, and is captured by the outcome. -/
def handleSlackInstruction (env : SlackEnv) (timer : Bool) (state : RunState)
    (text : Str) : (Bool × RunState) × SlackOutcome :=
  let cleanedText := normalizeOperatorSlackText text
  let normalized := lowerStr cleanedText
  if isExplicitSlackQuestion normalized then
    ((timer, state), .questionReply cleanedText)
  else
    match extractSlackControlDirective cleanedText ("pause".data) with
    | some pauseControl =>
      let (timer1, s1) := stopLoop timer state
      let s2 := withEvent s1
        { id := env.eid
          kind := .status_update
          message := "Loop paused by operator".data
          timestamp := env.now
          metadata := some [("source".data, .str slackSource),
                            ("interrupted".data, .bool env.interrupted)] }
      let s3 :=
        match pauseControl.followUp with
        | some f => enqueueOperatorCommand env.cmdId env.now env.eid2 slackSource s2 f
        | none => s2
      ((timer1, s3), .pausedAck)
    | none =>
      let resumeControl :=
        match extractSlackControlDirective cleanedText ("resume".data) with
        | some c => some c
        | none => extractSlackControlDirective cleanedText ("continue".data)
      match resumeControl with
      | some ctl =>
        let (timer1, s1) :=
          if !state.isRunning then startLoop timer state else (timer, state)
        let s2 := withEvent s1
          { id := env.eid
            kind := .status_update
            message := "Loop resumed by operator".data
            timestamp := env.now
            metadata := some [("source".data, .str slackSource)] }
        let s3 :=
          match ctl.followUp with
          | some f => enqueueOperatorCommand env.cmdId env.now env.eid2 slackSource s2 f
          | none => s2
        ((timer1, s3), .resumedAck)
      | none =>
        let s1 := enqueueOperatorCommand env.cmdId env.now env.eid2 slackSource state cleanedText
        if s1.isRunning then
          let s2 :=
            if env.interrupted then
              withEvent s1
                { id := env.eid3
                  kind := .status_update
                  message := ("Interrupted in-flight agent work to apply " ++
                    "the latest operator instruction").data
                  timestamp := env.now
                  metadata := some [("source".data, .str slackSource)] }
            else s1
          ((timer, s2), .handledLive cleanedText)
        else ((timer, s1), .handledQueued cleanedText)

/-! ### Task outcome classification and the building cycle (engine.ts) -/

/-- The fixed failure-token list of `isFailureSummary`. -/
def failureTokens : List Str :=
  ["failed", "error", "blocked", "skipped", "requires a human-managed"].map String.data

/-- `isFailureSummary` from engine.ts. -/
def isFailureSummary (summary : Str) : Bool :=
  let lower := lowerStr summary
  failureTokens.any (fun token => containsSub token lower)

def isPunctSent (c : Char) : Bool := c = '.' || c = '!' || c = '?'

/-- `split(/(?<=[.!?])\s+/)`: break after sentence punctuation followed
by whitespace, the separator consuming the whitespace run. A whitespace
run not preceded by sentence punctuation stays inside its chunk, so the
run after a punctuation mark is exactly the whitespace prefix of the
next chunk computed for the tail, and is dropped from it. -/
def splitSentences : Str → List Str
  | [] => [[]]
  | c :: rest =>
    match splitSentences rest with
    | [] => [[c]]
    | h :: t =>
      if isPunctSent c && (match rest with | r :: _ => isJsWs r | [] => false) then
        [c] :: h.dropWhile isJsWs :: t
      else (c :: h) :: t

/-- `renderOperatorSummary` from engine.ts. -/
def renderOperatorSummary (task : Task) (rawOutput : Str) (failed : Bool)
    (reason : Str) : Str :=
  let normalized := trimStr rawOutput
  let sentences :=
    ((splitSentences (collapseWs normalized)).map trimStr).filter (fun l => !l.isEmpty)
  let conciseDetail := (sentences.head?.getD normalized).take 220
  if failed then
    joinSp
      ["I hit a blocker while working on ".data ++ task.title ++ ['.'],
       "Reason: ".data ++ reason ++ ['.'],
       "Current issue: ".data ++ conciseDetail,
       "I left the task open so I can retry or adjust the plan next turn.".data]
  else
    joinSp
      ["I wrapped up ".data ++ task.title ++ ['.'],
       "Why now: ".data ++ reason ++ ['.'],
       "Result: ".data ++ conciseDetail,
       "I am moving straight to the next highest-leverage task.".data]
where
  joinSp : List Str → Str
    | [] => []
    | [l] => l
    | l :: ls => l ++ ' ' :: joinSp ls

/-- The state effect of `notify(message)`: `composeSlackStatusUpdate`
consumes decision-engine turns, then the Slack post's outcome is logged
(`delivered`/`err` come from the channel). -/
def notifyEffect (eid ts : Str) (turns : Option Int) (delivered : Bool) (err : Str)
    (message : Str) (state : RunState) : RunState :=
  let s1 := markAgentTurns turns state
  let eventMessage :=
    if delivered then "Slack notified: ".data ++ message
    else "Slack notification skipped: ".data ++ err
  withEvent s1
    { id := eid
      kind := .status_update
      message := eventMessage
      timestamp := ts
      metadata := some [("surface".data, .str slackSource),
                        ("delivered".data, .bool delivered)] }

/-- Environment values one `runBuilding` pass consumes: generated event
ids (`eid n`) and timestamps (`time n`) in program order, the
decision-engine turn counts, and the Slack notification outcome. -/
structure BuildEnv where
  eid : Nat → Str
  time : Nat → Str
  selectTurns : Option Int
  notifyTurns : Option Int
  delivered : Bool
  notifyErr : Str

/-- The tail of `runBuilding` after the execution result has been
classified (engine.ts 506-516), factored out of `runBuildingStep`:
clear `currentTask`, store the operator summary, re-read and re-sync
the plan, log and notify the summary, then transition to `planning`
when a pending task remains and to `operating` otherwise. `doc2` is
the plan document after the mark step and `s2` the state after
`completeTask`/`failTask`. -/
def buildFinish (env : BuildEnv) (doc2 : Str) (s2 : RunState) (friendly : Str) :
    Str × RunState :=
  let state3 := { s2 with currentTask := none, lastSummary := some friendly }
  let entries2 := readPlanEntries doc2 (env.time 6)
  let state4 := syncState state3 entries2
  let state5 := withEvent state4
    { id := env.eid 3
      kind := .status_update
      message := friendly
      timestamp := env.time 7 }
  let state6 := notifyEffect (env.eid 4) (env.time 8) env.notifyTurns
    env.delivered env.notifyErr friendly state5
  (doc2,
   transitionMode (env.eid 5) (env.time 9) state6
     (if state6.tasks.any (fun task => task.status == .pending) then .planning
      else .operating))

/-- `SharkEngine.runBuilding` as a function of the plan document and
run state. The two external calls are abstracted by arguments:
`selectionTaskId`/`selectionReason` are the fields parsed from
`selectPlannedTask`'s decision-engine reply, and `execEffect`/`output`
are the state effect and result text of `executePlannedTask`. The first
component of the result is the plan document after the pass. -/
def runBuildingStep (env : BuildEnv) (doc : Str) (state : RunState)
    (selectionTaskId : Option Str) (selectionReason : Str)
    (execEffect : RunState → RunState) (output : Str) : Str × RunState :=
  let entries := readPlanEntries doc (env.time 0)
  match entries with
  | [] => (doc, transitionMode (env.eid 0) (env.time 1) state .planning)
  | e0 :: erest =>
    let entries := e0 :: erest
    let state := syncState state entries
    let pendingEntries := entries.filter (fun e => e.task.status = .pending)
    match pendingEntries with
    | [] => (doc, transitionMode (env.eid 0) (env.time 1) state .operating)
    | first :: prest =>
      let pendingEntries := first :: prest
      let state := markAgentTurns env.selectTurns state
      let selectedEntry :=
        (pendingEntries.find? (fun e => selectionTaskId = some e.task.id)).getD first
      let state := beginTask (env.eid 1) (env.time 2) (env.time 3) state selectedEntry.task
      let state := execEffect state
      let failed := isFailureSummary output
      let docAndState :=
        if failed then (doc, failTask (env.eid 2) (env.time 4) (env.time 5) state output)
        else (planDocAfterMark doc selectedEntry.task.id,
              completeTask (env.eid 2) (env.time 4) (env.time 5) state output)
      let friendly := renderOperatorSummary selectedEntry.task output failed selectionReason
      buildFinish env docAndState.1 docAndState.2 friendly

/-! ### Fixtures used by witnesses and counterexamples -/

def sampleScore : OpportunityScore :=
  { marketSize := 9, speedToLaunch := 8, defensibility := 7, aiLeverage := 9,
    distributionPotential := 7, composite := 8 }

def sampleThesis : VentureThesis :=
  { id := "thesis-1".data, headline := "h".data, targetCustomer := "c".data,
    problem := "p".data, productShape := "ps".data, whyNow := "w".data,
    moatHypothesis := "m".data, score := sampleScore, selectedAt := "t0".data }

def sampleApproval : ApprovalRequest :=
  { id := "approval-1".data, action := "deploy".data, reason := "risky".data,
    status := .pending, requestedAt := "t1".data }

def stateBoot : RunState := createInitialRunState ("boot".data)

def stateWithApproval : RunState :=
  { stateBoot with thesis := some sampleThesis, pendingApproval := some sampleApproval }

def schedBusy : Sched := { activeCycle := some .manual, pendingCycleTrigger := none }

def c9state : RunState := { stateBoot with mode := .planning }

def c7entry : PlanTaskEntry :=
  planEntryOfParsed ("t7".data) 0
    { checked := false, id := "alpha".data, preferredTool := "sdk".data,
      title := "Build".data, description := "Do it".data }

def c7existing : Task :=
  { c7entry.task with status := .failed, output := some ("old output".data) }

def c8doc : Str := "# Plan\n- [ ] alpha | sdk | Build | Do it".data

def slackEnvEx : SlackEnv :=
  { cmdId := "c1".data, now := "n1".data, eid := "e1".data,
    eid2 := "e2".data, eid3 := "e3".data, interrupted := false }

def c6good : Str := "Sure thing:\n- [ ] a | sdk | t | d\nDone.".data

def c6bad : Str := "No plan is available right now.".data

def c3crdoc : Str := "- [ ] a | sdk | t | d\nx\r\r\ny".data

def c3doc : Str := "- [ ] alpha | sdk | Build | Do it\n# notes".data

def c5doc : Str := "- [ ] alpha | browser | Build | Do it".data

def c5out : Str := "Browser task failed: timeout".data

def c5env : BuildEnv :=
  { eid := fun _ => "e".data, time := fun _ => "t".data,
    selectTurns := none, notifyTurns := none,
    delivered := true, notifyErr := [] }

def c5entry : PlanTaskEntry :=
  planEntryOfParsed ("t".data) 0
    { checked := false, id := "alpha".data, preferredTool := "browser".data,
      title := "Build".data, description := "Do it".data }

/-! ### Supporting lemmas on the string primitives -/

theorem head?_dropWhile_false (p : Char → Bool) (l : Str) (a : Char)
    (h : (l.dropWhile p).head? = some a) : p a = false := by
  induction l with
  | nil => simp [List.dropWhile] at h
  | cons c cs ih =>
    rw [List.dropWhile_cons] at h
    split at h
    · exact ih h
    · rename_i hpc
      simp only [List.head?_cons, Option.some.injEq] at h
      subst h
      simpa using hpc

theorem getLast?_dropWhile (p : Char → Bool) (l : Str) (c : Char)
    (hl : l.getLast? = some c) (hc : p c = false) :
    (l.dropWhile p).getLast? = some c := by
  induction l with
  | nil => simp at hl
  | cons a as ih =>
    rw [List.dropWhile_cons]
    split
    · rcases as with _ | ⟨b, bs⟩
      · simp only [List.getLast?_singleton, Option.some.injEq] at hl
        subst hl
        simp_all
      · rw [List.getLast?_cons_cons] at hl
        exact ih hl
    · exact hl

theorem mem_dropWhile_of_false {α : Type} (p : α → Bool) (l : List α) (a : α)
    (ha : a ∈ l) (hp : p a = false) : a ∈ l.dropWhile p := by
  induction l with
  | nil => cases ha
  | cons b bs ih =>
    rw [List.dropWhile_cons]
    split
    · rcases List.mem_cons.1 ha with h | h
      · subst h
        simp_all
      · exact ih h
    · exact ha

theorem getLast?_drop (s : Str) (n : Nat) (h : s.drop n ≠ []) :
    (s.drop n).getLast? = s.getLast? := by
  induction s generalizing n with
  | nil => simp at h
  | cons a as ih =>
    rcases n with _ | m
    · rfl
    · rw [List.drop_succ_cons] at h ⊢
      rcases as with _ | ⟨b, bs⟩
      · simp at h
      · rw [List.getLast?_cons_cons]
        exact ih m h

theorem getLast?_cons_of_ne_nil {α : Type} (a : α) (l : List α) (h : l ≠ []) :
    (a :: l).getLast? = l.getLast? := by
  rcases l with _ | ⟨b, bs⟩
  · exact absurd rfl h
  · rw [List.getLast?_cons_cons]

theorem trimR_eq_self (s : Str) (c : Char) (h : s.getLast? = some c)
    (hc : isJsWs c = false) : trimR s = s := by
  unfold trimR
  have hh : s.reverse.head? = some c := by rw [List.head?_reverse, h]
  rcases hr : s.reverse with _ | ⟨a, as⟩
  · rw [hr] at hh
    cases hh
  · rw [hr] at hh
    simp only [List.head?_cons, Option.some.injEq] at hh
    subst hh
    rw [List.dropWhile_cons, if_neg (by simp [hc]), ← hr, List.reverse_reverse]

theorem getLast?_trimStr (s : Str) (c : Char) (h : s.getLast? = some c)
    (hws : isJsWs c = false) : (trimStr s).getLast? = some c := by
  unfold trimStr trimL
  rw [trimR_eq_self s c h hws]
  exact getLast?_dropWhile _ _ _ h hws

theorem getLast?_collapseWs (s : Str) (c : Char) (h : s.getLast? = some c)
    (hws : isJsWs c = false) : (collapseWs s).getLast? = some c := by
  induction s with
  | nil => simp at h
  | cons a as ih =>
    rcases as with _ | ⟨b, bs⟩
    · simp only [List.getLast?_singleton, Option.some.injEq] at h
      subst h
      rw [show collapseWs [a] = if isJsWs a then [' '] else [a] from rfl,
        if_neg (by simp [hws])]
      rfl
    · rw [List.getLast?_cons_cons] at h
      have hrec := ih h
      have hne : collapseWs (b :: bs) ≠ [] := by
        intro hnil
        rw [hnil] at hrec
        cases hrec
      rw [show collapseWs (a :: b :: bs) =
        if isJsWs a then
          (if isJsWs b then collapseWs (b :: bs) else ' ' :: collapseWs (b :: bs))
        else a :: collapseWs (b :: bs) from rfl]
      split
      · split
        · exact hrec
        · rw [getLast?_cons_of_ne_nil _ _ hne]
          exact hrec
      · rw [getLast?_cons_of_ne_nil _ _ hne]
        exact hrec

theorem getLast?_stripNumberPre (s : Str) (c : Char) (h : s.getLast? = some c)
    (hws : isJsWs c = false) : (stripNumberPre s).getLast? = some c := by
  simp only [stripNumberPre]
  split
  · exact h
  · split
    · rename_i r rest hr
      split
      · rename_i hcond
        have hdrop : (r :: rest).getLast? = some c := by
          rw [← hr, getLast?_drop s _ (by rw [hr]; simp)]
          exact h
        have hrest : rest ≠ [] := by
          intro hnil
          subst hnil
          simp at hcond
        rw [getLast?_cons_of_ne_nil _ _ hrest] at hdrop
        exact getLast?_dropWhile _ _ _ hdrop hws
      · exact h
    · exact h

theorem getLast?_lowerStr (s : Str) (c : Char) (h : s.getLast? = some c) :
    (lowerStr s).getLast? = some (asciiLower c) := by
  unfold lowerStr
  have hm := List.getLast?_map asciiLower s
  rw [h] at hm
  rw [hm]
  rfl

/-- A message whose raw text ends in `?` still ends in `?` after
`normalizeOperatorSlackText` and lower-casing. -/
theorem normalize_endsWith_q (text : Str) (h : text.getLast? = some '?') :
    (lowerStr (normalizeOperatorSlackText text)).getLast? = some '?' := by
  unfold normalizeOperatorSlackText
  have h1 : (text.dropWhile bulletChar).getLast? = some '?' :=
    getLast?_dropWhile _ _ _ h (by decide)
  have h2 := getLast?_stripNumberPre _ _ h1 (by decide)
  have h3 := getLast?_collapseWs _ _ h2 (by decide)
  have h4 := getLast?_trimStr _ _ h3 (by decide)
  rw [getLast?_lowerStr _ _ h4]
  rfl

/-- A raw text ending in `?` is classified as a question by
`isExplicitSlackQuestion` after normalization. -/
theorem question_of_endsWith_q (text : Str) (h : text.getLast? = some '?') :
    isExplicitSlackQuestion (lowerStr (normalizeOperatorSlackText text)) = true := by
  have hl := normalize_endsWith_q text h
  unfold isExplicitSlackQuestion
  rw [if_neg, if_neg, if_pos]
  · unfold endsWithCh
    simp [hl]
  · intro hpr
    rcases hpr with hp | hp <;>
      · rw [hp] at hl
        cases hl
  · intro hemp
    rcases he : lowerStr (normalizeOperatorSlackText text) with _ | ⟨a, as⟩
    · rw [he] at hl
      cases hl
    · rw [he] at hemp
      cases hemp

/-! ### Lines, joining and the plan-line grammar: supporting lemmas -/

theorem splitLines_crlf (rest : Str) :
    splitLines ('\r' :: '\n' :: rest) = [] :: splitLines rest := rfl

theorem splitLines_lf (rest : Str) :
    splitLines ('\n' :: rest) = [] :: splitLines rest := rfl

theorem splitLines_cons_eval (c : Char) (rest : Str)
    (h2 : ¬(c = '\r' ∧ rest.head? = some '\n')) (h3 : c ≠ '\n') :
    splitLines (c :: rest) =
      match splitLines rest with
      | [] => [[c]]
      | l :: ls => (c :: l) :: ls := by
  rw [splitLines.eq_def]
  split
  · rename_i heq
    exact absurd heq (by simp)
  · rename_i rest2 heq
    obtain ⟨hc, hr⟩ := List.cons.inj heq
    exact absurd ⟨hc, by rw [hr]; rfl⟩ h2
  · rename_i rest2 heq
    exact absurd (List.cons.inj heq).1 h3
  · rename_i c2 rest2 hh1 hh2 heq
    obtain ⟨hc, hr⟩ := List.cons.inj heq
    subst hc
    subst hr
    rfl

theorem splitLines_ne_nil (raw : Str) : splitLines raw ≠ [] := by
  induction raw with
  | nil => simp [splitLines]
  | cons c rest ih =>
    by_cases h3 : c = '\n'
    · subst h3
      rw [splitLines_lf]
      simp
    · by_cases h2 : c = '\r' ∧ rest.head? = some '\n'
      · obtain ⟨hc, hh⟩ := h2
        subst hc
        rcases rest with _ | ⟨r, rs⟩
        · cases hh
        · simp only [List.head?_cons, Option.some.injEq] at hh
          subst hh
          rw [splitLines_crlf]
          simp
      · rw [splitLines_cons_eval c rest h2 h3]
        rcases hsp : splitLines rest with _ | ⟨l, ls⟩ <;> simp

theorem splitLines_no_nl (raw : Str) : ∀ l ∈ splitLines raw, '\n' ∉ l := by
  induction raw with
  | nil =>
    intro l hl
    simp only [splitLines, List.mem_singleton] at hl
    simp [hl]
  | cons c rest ih =>
    intro l hl
    by_cases h3 : c = '\n'
    · subst h3
      rw [splitLines_lf] at hl
      rcases List.mem_cons.1 hl with h | h
      · simp [h]
      · exact ih l h
    · by_cases h2 : c = '\r' ∧ rest.head? = some '\n'
      · obtain ⟨hc, hh⟩ := h2
        subst hc
        rcases rest with _ | ⟨r, rs⟩
        · cases hh
        · simp only [List.head?_cons, Option.some.injEq] at hh
          subst hh
          rw [splitLines_crlf] at hl
          rcases List.mem_cons.1 hl with h | h
          · simp [h]
          · exact ih l (by rw [splitLines_lf]; exact List.mem_cons_of_mem _ h)
      · rw [splitLines_cons_eval c rest h2 h3] at hl
        rcases hsp : splitLines rest with _ | ⟨l0, ls0⟩
        · rw [hsp] at hl
          simp only [List.mem_singleton] at hl
          subst hl
          intro hmem
          exact h3 ((List.mem_singleton.1 hmem).symm)
        · rw [hsp] at hl
          rcases List.mem_cons.1 hl with h | h
          · subst h
            intro hmem
            rcases List.mem_cons.1 hmem with hx | hx
            · exact h3 hx.symm
            · exact ih l0 (hsp ▸ List.mem_cons_self l0 ls0) hx
          · exact ih l (hsp ▸ List.mem_cons_of_mem l0 h)

theorem splitLines_of_no_nl (l : Str) (hnl : '\n' ∉ l) : splitLines l = [l] := by
  induction l with
  | nil => rfl
  | cons c cs ih =>
    have h3 : c ≠ '\n' := fun h => hnl (h ▸ List.mem_cons_self c cs)
    have h2 : ¬(c = '\r' ∧ cs.head? = some '\n') := by
      rintro ⟨hc, hh⟩
      rcases cs with _ | ⟨r, rs⟩
      · cases hh
      · simp only [List.head?_cons, Option.some.injEq] at hh
        subst hh
        exact hnl (List.mem_cons_of_mem _ (List.mem_cons_self _ _))
    rw [splitLines_cons_eval c cs h2 h3,
      ih (fun h => hnl (List.mem_cons_of_mem c h))]

theorem splitLines_append (l t : Str) (hnl : '\n' ∉ l)
    (hcr : l.getLast? ≠ some '\r') :
    splitLines (l ++ '\n' :: t) = l :: splitLines t := by
  induction l with
  | nil => rfl
  | cons c cs ih =>
    have h3 : c ≠ '\n' := fun h => hnl (h ▸ List.mem_cons_self c cs)
    have hnlcs : '\n' ∉ cs := fun h => hnl (List.mem_cons_of_mem c h)
    have h2 : ¬(c = '\r' ∧ (cs ++ '\n' :: t).head? = some '\n') := by
      rintro ⟨hc, hh⟩
      subst hc
      rcases cs with _ | ⟨b, bs⟩
      · exact hcr (by simp)
      · rw [List.cons_append, List.head?_cons] at hh
        simp only [Option.some.injEq] at hh
        subst hh
        exact hnlcs (List.mem_cons_self _ _)
    have hcr' : cs.getLast? ≠ some '\r' := by
      rcases cs with _ | ⟨b, bs⟩
      · simp
      · rw [getLast?_cons_of_ne_nil c (b :: bs) (by simp)] at hcr
        exact hcr
    rw [List.cons_append, splitLines_cons_eval c (cs ++ '\n' :: t) h2 h3,
      ih hnlcs hcr']

theorem joinLF_cons_cons (l l2 : Str) (ls : List Str) :
    joinLF (l :: l2 :: ls) = l ++ '\n' :: joinLF (l2 :: ls) := rfl

theorem splitLines_joinLF (ls : List Str) (hne : ls ≠ [])
    (h : ∀ l ∈ ls, '\n' ∉ l ∧ l.getLast? ≠ some '\r') :
    splitLines (joinLF ls) = ls := by
  induction ls with
  | nil => exact absurd rfl hne
  | cons l rest ih =>
    rcases rest with _ | ⟨l2, rest2⟩
    · exact splitLines_of_no_nl l (h l (List.mem_cons_self _ _)).1
    · rw [joinLF_cons_cons,
        splitLines_append l (joinLF (l2 :: rest2)) (h l (List.mem_cons_self _ _)).1
          (h l (List.mem_cons_self _ _)).2,
        ih (by simp) (fun x hx => h x (List.mem_cons_of_mem _ hx))]

theorem parsePlanBody_nil (g : Str × Str × Str × Str)
    (h : parsePlanBody [] = some g) : False := by
  simp [parsePlanBody] at h

theorem parsePlanLine_shape (l : Str) (p : PlanParsed)
    (h : parsePlanLine l = some p) :
    ∃ mark rest, l = '-' :: ' ' :: '[' :: mark :: ']' :: ' ' :: rest ∧
      (mark = ' ' ∨ mark = 'x') ∧ rest ≠ [] ∧
      p.checked = decide (mark = 'x') ∧
      parsePlanLine ('-' :: ' ' :: '[' :: ' ' :: ']' :: ' ' :: rest) =
        some { p with checked := false } ∧
      parsePlanLine ('-' :: ' ' :: '[' :: 'x' :: ']' :: ' ' :: rest) =
        some { p with checked := true } := by
  unfold parsePlanLine at h
  split at h
  · rename_i mark rest
    split at h
    · rename_i hmark
      rcases hg : parsePlanBody rest with _ | g
      · rw [hg] at h
        cases h
      · rw [hg] at h
        simp only [Option.map_some'] at h
        have hp := Option.some.inj h
        subst hp
        refine ⟨mark, rest, rfl, by simpa using hmark, ?_, rfl, ?_, ?_⟩
        · intro hrest
          subst hrest
          exact parsePlanBody_nil g hg
        · show (if (' ' = ' ' || ' ' = 'x') = true then _ else none) = _
          rw [if_pos (by decide)]
          show (parsePlanBody rest).map _ = _
          rw [hg]
          rfl
        · show (if ('x' = ' ' || 'x' = 'x') = true then _ else none) = _
          rw [if_pos (by decide)]
          show (parsePlanBody rest).map _ = _
          rw [hg]
          rfl
    · cases h
  · cases h

theorem parsePlanLine_not_fence (x : Str) (hx : (parsePlanLine x).isSome = true) :
    isPre fenceMark x = false := by
  rcases hp : parsePlanLine x with _ | p
  · rw [hp] at hx
    cases hx
  · obtain ⟨mark, rest, hshape, -⟩ := parsePlanLine_shape x p hp
    subst hshape
    rfl

/-! ### C2 -/

/-- C2: `defaultNextMode` resolves to `discovery` whenever no objective
(thesis) has been chosen (the trigger plays no role: the function does
not consult it); otherwise to `blocked` when a pending approval with
status `pending` exists; otherwise to the current task's mode when that
task is `in_progress`; otherwise to `planning`. It never returns
`blocked` unless a pending approval with status `pending` exists. -/
theorem defaultNextMode_spec (s : RunState) :
    (s.thesis = none → defaultNextMode s = .discovery) ∧
    (s.thesis ≠ none → s.pendingApproval.map (·.status) = some .pending →
      defaultNextMode s = .blocked) ∧
    (∀ t, s.thesis ≠ none → s.pendingApproval.map (·.status) ≠ some .pending →
      s.currentTask = some t → t.status = .in_progress →
      defaultNextMode s = t.mode.toShark) ∧
    (s.thesis ≠ none → s.pendingApproval.map (·.status) ≠ some .pending →
      (∀ t, s.currentTask = some t → t.status ≠ .in_progress) →
      defaultNextMode s = .planning) ∧
    (defaultNextMode s = .blocked →
      ∃ a, s.pendingApproval = some a ∧ a.status = .pending) := by
  refine ⟨?_, ?_, ?_, ?_, ?_⟩
  · intro h
    simp [defaultNextMode, h]
  · intro hth hp
    rcases hths : s.thesis with _ | th
    · exact absurd hths hth
    · simp [defaultNextMode, hths, hp]
  · intro t hth hp hcur hst
    rcases hths : s.thesis with _ | th
    · exact absurd hths hth
    · simp [defaultNextMode, hths, hp, hcur, hst]
  · intro hth hp hnotin
    rcases hths : s.thesis with _ | th
    · exact absurd hths hth
    · rcases hcur : s.currentTask with _ | t
      · simp [defaultNextMode, hths, hp, hcur]
      · simp [defaultNextMode, hths, hp, hcur, hnotin t hcur]
  · intro hb
    rcases hths : s.thesis with _ | th
    · simp [defaultNextMode, hths] at hb
    rcases ha : s.pendingApproval with _ | a
    · exfalso
      rcases hcur : s.currentTask with _ | t
      · simp [defaultNextMode, hths, ha, hcur] at hb
      · by_cases hst : t.status = .in_progress
        · simp [defaultNextMode, hths, ha, hcur, hst] at hb
          rcases hm : t.mode <;> rw [hm] at hb <;> exact absurd hb (by decide)
        · simp [defaultNextMode, hths, ha, hcur, hst] at hb
    · by_cases hstat : a.status = .pending
      · exact ⟨a, rfl, hstat⟩
      · exfalso
        have hp : s.pendingApproval.map (·.status) ≠ some .pending := by
          rw [ha]
          simp [hstat]
        rcases hcur : s.currentTask with _ | t
        · simp [defaultNextMode, hths, hp, hcur] at hb
        · by_cases hst : t.status = .in_progress
          · simp [defaultNextMode, hths, hp, hcur, hst] at hb
            rcases hm : t.mode <;> rw [hm] at hb <;> exact absurd hb (by decide)
          · simp [defaultNextMode, hths, hp, hcur, hst] at hb

/-- Witness for C2: with no thesis the mode is `discovery`; with a
thesis and a pending approval it is `blocked`. -/
theorem defaultNextMode_spec_witness :
    defaultNextMode stateBoot = .discovery ∧
    defaultNextMode stateWithApproval = .blocked := by
  refine ⟨(defaultNextMode_spec stateBoot).1 rfl, ?_⟩
  exact (defaultNextMode_spec stateWithApproval).2.1 (by decide) (by decide)

/-! ### C10 -/

/-- C10: whatever run state `init()` loads from the store, the
resulting state has `isRunning = false`; a restarted orchestrator never
auto-resumes until `start()` is called. -/
theorem init_clears_isRunning (loaded : RunState) (derivedStart : Str)
    (h : StaticHealthInputs) :
    (initState loaded derivedStart h).isRunning = false := by
  unfold initState seedStaticHealth setProviderHealth
  split <;> (rcases loaded.totalAgentTurns with _ | n <;> rfl)

/-! ### C1 -/

/-- C1: while a cycle is active, a `runOnce` call never starts a second
cycle and only records its trigger, where an `interval` trigger never
overwrites an already-recorded trigger while any non-interval trigger
(manual, startup, interrupt) does overwrite whatever was recorded;
across any sequence of arrivals the active cycle is untouched and the
slot is the fold of the overwrite rule; and when the active cycle
finishes, exactly one follow-up starts, carrying the recorded trigger,
with the slot already cleared when it begins (`none` recorded means no
follow-up). -/
theorem runOnce_single_flight_coalesce :
    (∀ s t c, s.activeCycle = some c →
      (runOnceEnter s t).2 = false ∧ (runOnceEnter s t).1.activeCycle = some c) ∧
    (∀ x, recordTrigger (some x) .interval = some x) ∧
    (∀ t p, t ≠ .interval → recordTrigger p t = some t) ∧
    (∀ t, recordTrigger none t = some t) ∧
    (∀ ts s c, s.activeCycle = some c →
      (arrivals s ts).activeCycle = some c ∧
      (arrivals s ts).pendingCycleTrigger = ts.foldl recordTrigger s.pendingCycleTrigger) ∧
    (∀ s t, s.pendingCycleTrigger = some t →
      cycleFinish s = ({ activeCycle := some t, pendingCycleTrigger := none }, some t)) ∧
    (∀ s, s.pendingCycleTrigger = none →
      cycleFinish s = ({ activeCycle := none, pendingCycleTrigger := none }, none)) := by
  refine ⟨?_, ?_, ?_, ?_, ?_, ?_, ?_⟩
  · intro s t c h
    cases s
    simp only at h
    subst h
    exact ⟨rfl, rfl⟩
  · intro x
    simp [recordTrigger]
  · intro t p ht
    simp [recordTrigger, ht]
  · intro t
    simp [recordTrigger]
  · intro ts
    induction ts with
    | nil => exact fun s c h => ⟨h, rfl⟩
    | cons t ts ih =>
      intro s c h
      have hstep : (runOnceEnter s t).1.activeCycle = some c ∧
          (runOnceEnter s t).1.pendingCycleTrigger =
            recordTrigger s.pendingCycleTrigger t := by
        cases s
        simp only at h
        subst h
        exact ⟨rfl, rfl⟩
      have := ih ((runOnceEnter s t).1) c hstep.1
      refine ⟨this.1, ?_⟩
      rw [arrivals] at this ⊢
      simp only [List.foldl_cons]
      rw [this.2, hstep.2]
  · intro s t h
    simp [cycleFinish, h, runOnceEnter]
  · intro s h
    simp [cycleFinish, h]

/-- Witness for C1: with a manual cycle active, an interval arrival
starts nothing; after arrivals interval, interrupt, interval the
recorded trigger is `interrupt` (the interval did not overwrite it);
finishing starts exactly one follow-up with it and a cleared slot. -/
theorem runOnce_single_flight_coalesce_witness :
    (runOnceEnter schedBusy .interval).2 = false ∧
    (arrivals schedBusy [.interval, .interrupt, .interval]).pendingCycleTrigger =
      some .interrupt ∧
    cycleFinish (arrivals schedBusy [.interval, .interrupt, .interval]) =
      ({ activeCycle := some .interrupt, pendingCycleTrigger := none },
        some .interrupt) := by
  obtain ⟨h1, _, _, _, h5, h6, _⟩ := runOnce_single_flight_coalesce
  refine ⟨(h1 schedBusy .interval .manual rfl).1, ?_, ?_⟩
  · have := (h5 [.interval, .interrupt, .interval] schedBusy .manual rfl).2
    rw [this]
    decide
  · exact h6 _ .interrupt (by decide)

/-! ### C9 -/

/-- C9 counterexample: `blockForApproval` changes the run's mode from
`planning` to `blocked`, yet the one event it appends has kind
`approval_requested` and carries no record of the prior or new mode
(its metadata has no `nextMode` entry), so not every mode change goes
through a transition appending an event recording the prior and new
mode. -/
theorem mode_audit_counterexample :
    (blockForApproval ("e1".data) c9state sampleApproval).mode = .blocked ∧
    c9state.mode = .planning ∧
    (blockForApproval ("e1".data) c9state sampleApproval).recentEvents.all
      (fun e => e.kind == .approval_requested &&
        (metaLookup e.metadata nextModeKey).isNone) = true := by
  refine ⟨by decide, by decide, by decide⟩

/-- C9 amended: every mode change is one of three audited paths —
`transitionMode`, which appends a `mode_changed` event recording the
new (not the prior) mode in its metadata; `withEvent` applied to a
`mode_changed` event; or `blockForApproval`, which sets `blocked` while
appending an `approval_requested` event. Every other state operation
preserves `mode`. -/
theorem mode_change_audit :
    (∀ eid ts s m, (transitionMode eid ts s m).mode = m ∧
      ∃ e, (transitionMode eid ts s m).recentEvents.head? = some e ∧
        e.kind = .mode_changed ∧
        metaLookup e.metadata nextModeKey = some (.str (modeStr m))) ∧
    (∀ s e, e.kind ≠ .mode_changed → (withEvent s e).mode = s.mode) ∧
    (∀ eid s a, (blockForApproval eid s a).mode = .blocked ∧
      ∃ e, (blockForApproval eid s a).recentEvents.head? = some e ∧
        e.kind = .approval_requested) ∧
    (∀ eid ua ts s t, (beginTask eid ua ts s t).mode = s.mode) ∧
    (∀ eid ua ts s x, (completeTask eid ua ts s x).mode = s.mode) ∧
    (∀ eid ua ts s x, (failTask eid ua ts s x).mode = s.mode) ∧
    (∀ s t, (queueTask s t).mode = s.mode) ∧
    (∀ s t h, (setProviderHealth s t h).mode = s.mode) ∧
    (∀ s c, (enqueueCommand s c).mode = s.mode) ∧
    (∀ s, (clearCommands s).mode = s.mode) := by
  have hmodeOf : ∀ m : SharkMode, strToMode (modeStr m) = some m := by
    intro m
    cases m <;> rfl
  have hcontains : ∀ m : SharkMode, SHARK_MODES.contains m = true := by
    intro m
    cases m <;> rfl
  have hwe : ∀ s e, e.kind ≠ EventKind.mode_changed → (withEvent s e).mode = s.mode := by
    intro s e he
    unfold withEvent
    rw [if_neg he]
  refine ⟨?_, hwe, ?_, ?_, ?_, ?_, ?_, ?_, ?_, ?_⟩
  · intro eid ts s m
    unfold transitionMode
    rw [if_pos (hcontains m)]
    constructor
    · unfold withEvent
      simp only [if_pos rfl]
      show extractMode (metaLookup (some [(nextModeKey, MetaVal.str (modeStr m))]) nextModeKey) = m
      simp [metaLookup, extractMode, hmodeOf]
    · exact ⟨_, rfl, rfl, by simp [metaLookup]⟩
  · intro eid s a
    exact ⟨rfl, ⟨_, rfl, rfl⟩⟩
  · intro eid ua ts s t
    rfl
  · intro eid ua ts s x
    unfold completeTask
    rcases s.currentTask with _ | c <;> rfl
  · intro eid ua ts s x
    unfold failTask
    rcases s.currentTask with _ | c <;> rfl
  · intro s t
    rfl
  · intro s t h
    rfl
  · intro s c
    rfl
  · intro s
    rfl

/-- Witness for C9's amended theorem: a concrete transition appends a
`mode_changed` event naming the new mode, and a non-mode event leaves
the mode alone. -/
theorem mode_change_audit_witness :
    (transitionMode ("e2".data) ("t2".data) stateBoot .planning).mode = .planning ∧
    (withEvent stateBoot
      { id := "e3".data, kind := .status_update, message := [],
        timestamp := "t3".data }).mode = stateBoot.mode := by
  refine ⟨(mode_change_audit.1 ("e2".data) ("t2".data) stateBoot .planning).1, ?_⟩
  exact mode_change_audit.2.1 stateBoot _ (by decide)

/-! ### C7 -/

/-- C7: re-sync maps the parsed entries one-to-one; a task whose id
already exists in memory keeps the existing `output` field; a parsed
task whose id equals the run's current task id and whose parsed status
is `pending` gets `in_progress`; every other parsed task takes the
parsed status. -/
theorem syncTasksFromPlan_spec (tasks : List Task) (current : Option Task)
    (entries : List PlanTaskEntry) :
    (syncTasksFromPlan tasks current entries).length = entries.length ∧
    (∀ (k : Nat) (entry : PlanTaskEntry), entries[k]? = some entry →
      ∃ r, (syncTasksFromPlan tasks current entries)[k]? = some r ∧
        r.id = entry.task.id ∧
        (∀ existing, mapGetLast tasks entry.task.id = some existing →
          r.output = existing.output) ∧
        (mapGetLast tasks entry.task.id = none → r.output = entry.task.output) ∧
        ((current.map (·.id) = some entry.task.id ∧ entry.task.status = .pending) →
          r.status = .in_progress) ∧
        (¬(current.map (·.id) = some entry.task.id ∧ entry.task.status = .pending) →
          r.status = entry.task.status)) := by
  constructor
  · simp [syncTasksFromPlan]
  · intro k entry hk
    refine ⟨syncOne tasks current entry, ?_, ?_, ?_, ?_, ?_, ?_⟩
    · rw [syncTasksFromPlan, List.getElem?_map, hk]
      rfl
    · unfold syncOne
      rcases mapGetLast tasks entry.task.id with _ | existing <;>
        · simp only []
          split <;> rfl
    · intro existing hex
      unfold syncOne
      rw [hex]
      simp only []
      split <;> rfl
    · intro hex
      unfold syncOne
      rw [hex]
      simp only []
      split <;> rfl
    · intro hc
      unfold syncOne
      rcases hex : mapGetLast tasks entry.task.id with _ | existing <;>
        · simp only []
          rw [if_pos]
          exact hc
    · intro hc
      unfold syncOne
      rcases hex : mapGetLast tasks entry.task.id with _ | existing <;>
        · simp only []
          rw [if_neg]
          exact hc

/-- Witness for C7 at a concrete re-sync: the surviving output and the
`in_progress` forcing are both observable. -/
theorem syncTasksFromPlan_spec_witness :
    ∃ r, (syncTasksFromPlan [c7existing] (some c7existing) [c7entry])[0]? = some r ∧
      r.output = some ("old output".data) ∧ r.status = .in_progress := by
  obtain ⟨-, h⟩ := syncTasksFromPlan_spec [c7existing] (some c7existing) [c7entry]
  obtain ⟨r, hr, -, hout, -, hst, -⟩ := h 0 c7entry (by decide)
  refine ⟨r, hr, ?_, hst (by decide)⟩
  rw [hout c7existing (by decide)]
  rfl

/-! ### C8 -/

/-- C8 counterexample: in a document whose line 0 is a heading, the
task on document line 1 (0-indexed) receives priority 100, not
`max(1, 100 − 1) = 99`: `readPlanEntries` numbers tasks by their index
among the parsed task lines, not by document line. -/
theorem planPriority_document_line_counterexample :
    (splitLines c8doc)[1]? = some ("- [ ] alpha | sdk | Build | Do it".data) ∧
    parsePlanLine ("# Plan".data) = none ∧
    ((readPlanEntries c8doc ("t8".data)).map (fun e => e.task.priority) = [100]) ∧
    max 1 (100 - 1) = 99 := by
  exact ⟨by decide, by decide, by decide, by decide⟩

/-- C8 amended: lines not matching the grammar are ignored without
error, and the task built from the k-th (0-indexed) *parsed* task line
gets priority `max(1, 100 − k)`, with checked lines mapping to
`completed` and unchecked lines to `pending`. -/
theorem readPlanEntries_spec (raw now : Str) :
    (readPlanEntries raw now).length =
      ((splitLines raw).filterMap parsePlanLine).length ∧
    (∀ (k : Nat) (p : PlanParsed),
      ((splitLines raw).filterMap parsePlanLine)[k]? = some p →
      ∃ e, (readPlanEntries raw now)[k]? = some e ∧
        e.task.priority = max 1 (100 - k) ∧
        e.task.id = p.id ∧
        e.preferredTool = p.preferredTool ∧
        e.task.status = (if p.checked then .completed else .pending)) := by
  constructor
  · simp [readPlanEntries]
  · intro k p hk
    refine ⟨planEntryOfParsed now k p, ?_, rfl, rfl, rfl, rfl⟩
    rw [readPlanEntries, List.getElem?_mapIdx, hk]
    rfl

/-- Witness for C8's amended theorem on a concrete two-line document. -/
theorem readPlanEntries_spec_witness :
    ∃ e, (readPlanEntries c8doc ("t8".data))[0]? = some e ∧
      e.task.priority = max 1 (100 - 0) ∧ e.task.status = .pending := by
  obtain ⟨-, h⟩ := readPlanEntries_spec c8doc ("t8".data)
  obtain ⟨e, he, hp, -, -, hs⟩ := h 0
    { checked := false, id := "alpha".data, preferredTool := "sdk".data,
      title := "Build".data, description := "Do it".data } (by decide)
  refine ⟨e, he, hp, ?_⟩
  rw [hs]
  rfl

/-! ### C4 -/

/-- C4: an operator message whose text ends in a question mark (such a
message is never exactly "pause" or "resume") is classified as a
question: `handleSlackInstruction` returns the state unchanged together
with the question-reply outcome (`composeSlackQuestionReply` on the
cleaned text, an immediate answer synthesized from the current run
state), and in particular the queued-command list is unchanged — the
message is never appended to it. -/
theorem slack_question_not_queued (env : SlackEnv) (timer : Bool)
    (state : RunState) (text : Str) (h : text.getLast? = some '?') :
    handleSlackInstruction env timer state text =
      ((timer, state), .questionReply (normalizeOperatorSlackText text)) ∧
    (handleSlackInstruction env timer state text).1.2.queuedCommands =
      state.queuedCommands := by
  have hq := question_of_endsWith_q text h
  have hmain : handleSlackInstruction env timer state text =
      ((timer, state), .questionReply (normalizeOperatorSlackText text)) := by
    unfold handleSlackInstruction
    dsimp only
    rw [if_pos hq]
  exact ⟨hmain, by rw [hmain]⟩

set_option maxHeartbeats 1000000 in
/-- Witness for C4 at the message "what is the deploy status?". -/
theorem slack_question_not_queued_witness :
    handleSlackInstruction slackEnvEx true stateBoot
        ("what is the deploy status?".data) =
      ((true, stateBoot),
        .questionReply ("what is the deploy status?".data)) := by
  have h := (slack_question_not_queued slackEnvEx true stateBoot
    ("what is the deploy status?".data) (by decide)).1
  rw [h]
  decide

/-! ### C6 -/

theorem mem_trimR (a : Char) (s : Str) (h : a ∈ trimR s) : a ∈ s := by
  unfold trimR at h
  rw [List.mem_reverse] at h
  have := (List.dropWhile_suffix _).sublist.subset h
  rwa [List.mem_reverse] at this

theorem mem_trimStr (a : Char) (s : Str) (h : a ∈ trimStr s) : a ∈ s := by
  unfold trimStr trimL at h
  exact mem_trimR a s ((List.dropWhile_suffix isJsWs).sublist.subset h)

theorem getLast?_trimStr_not_ws (s : Str) (c : Char)
    (h : (trimStr s).getLast? = some c) : isJsWs c = false := by
  unfold trimStr trimL at h
  have hne : (trimR s).dropWhile isJsWs ≠ [] := by
    intro hnil
    rw [hnil] at h
    cases h
  obtain ⟨pfx, hpfx⟩ := List.dropWhile_suffix (l := trimR s) isJsWs
  have hlast : (trimR s).getLast? = some c := by
    rw [← hpfx, List.getLast?_append_of_ne_nil pfx hne]
    exact h
  unfold trimR at hlast
  rw [List.getLast?_reverse] at hlast
  exact head?_dropWhile_false _ _ _ hlast

theorem extractPlanLoop_inv (ls : List Str) (saw : Bool) (acc : List Str)
    (hacc : ∀ l ∈ acc, l = [] ∨ (parsePlanLine l).isSome = true) :
    ∀ l ∈ extractPlanLoop ls saw acc, l = [] ∨ (parsePlanLine l).isSome = true := by
  induction ls generalizing saw acc with
  | nil =>
    intro l hl
    rw [extractPlanLoop] at hl
    exact hacc l hl
  | cons l0 ls ih =>
    simp only [extractPlanLoop]
    split
    · split
      · refine ih _ _ (fun l hl => ?_)
        rcases List.mem_append.1 hl with h | h
        · exact hacc l h
        · exact Or.inl (by simpa using h)
      · exact ih _ _ hacc
    · split
      · exact ih _ _ hacc
      · split
        · rename_i hsome
          refine ih _ _ (fun l hl => ?_)
          rcases List.mem_append.1 hl with h | h
          · exact hacc l h
          · have hc : l = trimStr (trimR l0) := by simpa using h
            exact Or.inr (hc ▸ hsome)
        · exact ih _ _ hacc

theorem extractPlanLoop_origin (ls : List Str) (saw : Bool) (acc : List Str) :
    ∀ l ∈ extractPlanLoop ls saw acc,
      l ∈ acc ∨ l = [] ∨ ∃ line ∈ ls, l = trimStr (trimR line) := by
  induction ls generalizing saw acc with
  | nil =>
    intro l hl
    rw [extractPlanLoop] at hl
    exact Or.inl hl
  | cons l0 ls ih =>
    intro l hl
    simp only [extractPlanLoop] at hl
    have push : ∀ x : Str, l ∈ acc ++ [x] →
        l ∈ acc ∨ l = x := by
      intro x hx
      rcases List.mem_append.1 hx with h | h
      · exact Or.inl h
      · exact Or.inr (by simpa using h)
    split at hl
    · split at hl
      · rcases ih _ _ l hl with h | h | ⟨line, hline, heq⟩
        · rcases push _ h with h' | h'
          · exact Or.inl h'
          · exact Or.inr (Or.inl h')
        · exact Or.inr (Or.inl h)
        · exact Or.inr (Or.inr ⟨line, List.mem_cons_of_mem _ hline, heq⟩)
      · rcases ih _ _ l hl with h | h | ⟨line, hline, heq⟩
        · exact Or.inl h
        · exact Or.inr (Or.inl h)
        · exact Or.inr (Or.inr ⟨line, List.mem_cons_of_mem _ hline, heq⟩)
    · split at hl
      · rcases ih _ _ l hl with h | h | ⟨line, hline, heq⟩
        · exact Or.inl h
        · exact Or.inr (Or.inl h)
        · exact Or.inr (Or.inr ⟨line, List.mem_cons_of_mem _ hline, heq⟩)
      · split at hl
        · rcases ih _ _ l hl with h | h | ⟨line, hline, heq⟩
          · rcases push _ h with h' | h'
            · exact Or.inl h'
            · exact Or.inr (Or.inr ⟨l0, List.mem_cons_self _ _, h'⟩)
          · exact Or.inr (Or.inl h)
          · exact Or.inr (Or.inr ⟨line, List.mem_cons_of_mem _ hline, heq⟩)
        · rcases ih _ _ l hl with h | h | ⟨line, hline, heq⟩
          · exact Or.inl h
          · exact Or.inr (Or.inl h)
          · exact Or.inr (Or.inr ⟨line, List.mem_cons_of_mem _ hline, heq⟩)

theorem extractPlanLoop_none (ls : List Str) (acc : List Str)
    (h : ∀ line ∈ ls, parsePlanLine (trimStr (trimR line)) = none) :
    extractPlanLoop ls false acc = acc := by
  induction ls generalizing acc with
  | nil => rfl
  | cons l0 ls ih =>
    have h0 := h l0 (List.mem_cons_self _ _)
    have hrest : ∀ line ∈ ls, parsePlanLine (trimStr (trimR line)) = none :=
      fun x hx => h x (List.mem_cons_of_mem _ hx)
    simp only [extractPlanLoop]
    split
    · rw [if_neg (by simp)]
      exact ih _ hrest
    · split
      · exact ih _ hrest
      · rw [if_neg (by simp [h0])]
        exact ih _ hrest

theorem extractPlanLoop_keeps (ls : List Str) (saw : Bool) (acc : List Str)
    (hex : (∃ l ∈ acc, l ≠ []) ∨
      ∃ line ∈ ls, (parsePlanLine (trimStr (trimR line))).isSome = true) :
    ∃ l ∈ extractPlanLoop ls saw acc, l ≠ [] := by
  induction ls generalizing saw acc with
  | nil =>
    rcases hex with ⟨l, hl, hne⟩ | ⟨line, hline, _⟩
    · exact ⟨l, by rwa [extractPlanLoop], hne⟩
    · cases hline
  | cons l0 ls ih =>
    simp only [extractPlanLoop]
    split
    · rename_i hempty
      have hnext :
          (∃ l ∈ acc, l ≠ []) ∨
            ∃ line ∈ ls, (parsePlanLine (trimStr (trimR line))).isSome = true := by
        rcases hex with h | ⟨line, hline, hsome⟩
        · exact Or.inl h
        · rcases List.mem_cons.1 hline with h' | h'
          · exfalso
            subst h'
            have hc : trimStr (trimR line) = [] := by
              simpa using hempty
            rw [hc] at hsome
            cases hsome
          · exact Or.inr ⟨line, h', hsome⟩
      split
      · refine ih _ _ ?_
        rcases hnext with ⟨l, hl, hne⟩ | h
        · exact Or.inl ⟨l, List.mem_append_left _ hl, hne⟩
        · exact Or.inr h
      · exact ih _ _ hnext
    · rename_i hempty
      split
      · rename_i hfence
        refine ih _ _ ?_
        rcases hex with h | ⟨line, hline, hsome⟩
        · exact Or.inl h
        · rcases List.mem_cons.1 hline with h' | h'
          · exfalso
            subst h'
            rw [parsePlanLine_not_fence _ hsome] at hfence
            cases hfence
          · exact Or.inr ⟨line, h', hsome⟩
      · split
        · refine ih _ _ (Or.inl ?_)
          refine ⟨trimStr (trimR l0), List.mem_append_right _ (by simp), ?_⟩
          intro hc
          rw [hc] at hempty
          simp at hempty
        · rename_i hfence hsome0
          refine ih _ _ ?_
          rcases hex with h | ⟨line, hline, hsome⟩
          · exact Or.inl h
          · rcases List.mem_cons.1 hline with h' | h'
            · exfalso
              subst h'
              rw [Bool.not_eq_true, Bool.eq_false_iff] at hsome0
              exact hsome0 hsome
            · exact Or.inr ⟨line, h', hsome⟩

theorem mem_dropTrailingEmpty (ls : List Str) (l : Str)
    (hl : l ∈ dropTrailingEmpty ls) : l ∈ ls := by
  unfold dropTrailingEmpty at hl
  rw [List.mem_reverse] at hl
  have := (List.dropWhile_suffix _).sublist.subset hl
  rwa [List.mem_reverse] at this

theorem mem_dropTrailingEmpty_of_ne (ls : List Str) (l : Str) (hl : l ∈ ls)
    (hne : l ≠ []) : l ∈ dropTrailingEmpty ls := by
  unfold dropTrailingEmpty
  rw [List.mem_reverse]
  refine mem_dropWhile_of_false _ _ _ (List.mem_reverse.2 hl) ?_
  cases l with
  | nil => exact absurd rfl hne
  | cons a as => rfl

theorem joinLF_append_empty (ls : List Str) (hne : ls ≠ []) :
    joinLF ls ++ ['\n'] = joinLF (ls ++ [[]]) := by
  induction ls with
  | nil => exact absurd rfl hne
  | cons l rest ih =>
    rcases rest with _ | ⟨l2, rest2⟩
    · rfl
    · rw [joinLF_cons_cons, List.append_assoc, List.cons_append, ih (by simp)]
      rfl

/-- C6: a decision-engine response meant to replace the whole plan
document is first reduced by `extractPlanText` to only valid task lines
plus blank separators — every line of the document that gets written is
blank or parses under the task-line grammar — and the write happens at
all (`materializePlanFromAgentText` returns `some`) exactly when some
line of the response parses as a task line after trimming; otherwise
nothing is written and the replacement is not applied (the callers then
record the recovery/synchronization failure instead). -/
theorem plan_replacement_reduction (text now : Str) :
    (∀ doc entries, materializePlanFromAgentText text now = some (doc, entries) →
      ∀ l ∈ splitLines doc, l = [] ∨ (parsePlanLine l).isSome = true) ∧
    (materializePlanFromAgentText text now = none ↔
      ∀ line ∈ splitLines text, parsePlanLine (trimStr (trimR line)) = none) := by
  have hP1 : ∀ l ∈ dropTrailingEmpty (extractPlanLoop (splitLines text) false []),
      l = [] ∨ (parsePlanLine l).isSome = true := by
    intro l hl
    exact extractPlanLoop_inv (splitLines text) false [] (by simp) l
      (mem_dropTrailingEmpty _ _ hl)
  have hP2 : ∀ l ∈ dropTrailingEmpty (extractPlanLoop (splitLines text) false []),
      '\n' ∉ l ∧ l.getLast? ≠ some '\r' := by
    intro l hl
    rcases extractPlanLoop_origin (splitLines text) false [] l
        (mem_dropTrailingEmpty _ _ hl) with h | h | ⟨line, hline, heq⟩
    · cases h
    · subst h
      exact ⟨by simp, by simp⟩
    · subst heq
      constructor
      · intro hmem
        exact splitLines_no_nl text line hline
          (mem_trimR _ _ (mem_trimStr _ _ hmem))
      · intro hlast
        have := getLast?_trimStr_not_ws _ _ hlast
        cases this
  have isEmpty_false_of_ne : ∀ {α : Type} (l : List α), l ≠ [] → l.isEmpty = false := by
    intro α l h
    cases l with
    | nil => exact absurd rfl h
    | cons a as => rfl
  constructor
  · intro doc entries hmat l hl
    simp only [materializePlanFromAgentText] at hmat
    split at hmat
    · cases hmat
    · rename_i hplanne
      have hdoc : extractPlanText text = doc :=
        congrArg Prod.fst (Option.some.inj hmat)
      simp only [extractPlanText] at hplanne hdoc
      split at hdoc
      · rename_i hemp
        rw [if_pos hemp] at hplanne
        simp at hplanne
      · rename_i hemp
        have hnonempty :
            dropTrailingEmpty (extractPlanLoop (splitLines text) false []) ≠ [] := by
          intro hc
          rw [hc] at hemp
          simp at hemp
        rw [joinLF_append_empty _ hnonempty] at hdoc
        have hsplit : splitLines doc =
            dropTrailingEmpty (extractPlanLoop (splitLines text) false []) ++ [[]] := by
          rw [← hdoc]
          refine splitLines_joinLF _ (by simp) ?_
          intro x hx
          rcases List.mem_append.1 hx with h | h
          · exact hP2 x h
          · have hx0 : x = [] := by simpa using h
            subst hx0
            exact ⟨by simp, by simp⟩
        rw [hsplit] at hl
        rcases List.mem_append.1 hl with h | h
        · exact hP1 l h
        · exact Or.inl (by simpa using h)
  · constructor
    · intro hnone
      by_contra hcon
      push_neg at hcon
      obtain ⟨line, hline, hparse⟩ := hcon
      have hsome : (parsePlanLine (trimStr (trimR line))).isSome = true := by
        rcases hp : parsePlanLine (trimStr (trimR line)) with _ | p
        · exact absurd hp hparse
        · rfl
      obtain ⟨l, hl, hlne⟩ :=
        extractPlanLoop_keeps (splitLines text) false []
          (Or.inr ⟨line, hline, hsome⟩)
      have hmem := mem_dropTrailingEmpty_of_ne _ _ hl hlne
      have hplanne :
          dropTrailingEmpty (extractPlanLoop (splitLines text) false []) ≠ [] :=
        fun hc => by rw [hc] at hmem; cases hmem
      have hptne : extractPlanText text ≠ [] := by
        simp only [extractPlanText]
        rw [isEmpty_false_of_ne _ hplanne]
        simp
      have hform : materializePlanFromAgentText text now =
          some (extractPlanText text, readPlanEntries (extractPlanText text) now) := by
        simp only [materializePlanFromAgentText]
        rw [isEmpty_false_of_ne _ hptne]
        simp
      rw [hform] at hnone
      cases hnone
    · intro hall
      simp only [materializePlanFromAgentText, extractPlanText]
      rw [extractPlanLoop_none (splitLines text) [] hall]
      rfl

set_option maxHeartbeats 1000000 in
/-- Witness for C6: a prose-only response is rejected without a write,
and the document written for a mixed response consists only of task
lines and blanks. -/
theorem plan_replacement_reduction_witness :
    materializePlanFromAgentText c6bad ("t6".data) = none ∧
    (∀ l ∈ splitLines ("- [ ] a | sdk | t | d\n".data),
      l = [] ∨ (parsePlanLine l).isSome = true) := by
  constructor
  · exact (plan_replacement_reduction c6bad ("t6".data)).2.mpr (by decide)
  · exact (plan_replacement_reduction c6good ("t6".data)).1
      ("- [ ] a | sdk | t | d\n".data)
      (readPlanEntries ("- [ ] a | sdk | t | d\n".data) ("t6".data))
      (by decide)

/-! ### C3 -/

theorem planLineFlips_iff (taskId line : Str) :
    planLineFlips taskId line = true ↔
      ∃ p, parsePlanLine line = some p ∧ p.id = taskId ∧ p.checked = false := by
  unfold planLineFlips
  rcases hp : parsePlanLine line with _ | p
  · simp
  · simp [hp]

theorem flipLine_of_not_flips (taskId line : Str)
    (h : planLineFlips taskId line = false) : flipLine taskId line = line := by
  unfold flipLine
  unfold planLineFlips at h
  rcases hp : parsePlanLine line with _ | p
  · rfl
  · rw [hp] at h
    simp only [hp]
    have h2 : (p.id == taskId && !p.checked) = false := h
    rw [if_neg (by simp [h2])]

theorem flipLine_of_flips (taskId line : Str) (p : PlanParsed)
    (hp : parsePlanLine line = some p) (hid : p.id = taskId)
    (hunch : p.checked = false) :
    ∃ rest, line = '-' :: ' ' :: '[' :: ' ' :: ']' :: ' ' :: rest ∧ rest ≠ [] ∧
      flipLine taskId line = '-' :: ' ' :: '[' :: 'x' :: ']' :: ' ' :: rest ∧
      flipLine taskId line = "- [x]".data ++ line.drop 5 ∧
      parsePlanLine (flipLine taskId line) = some { p with checked := true } := by
  obtain ⟨mark, rest, hsh, hmk, hrne, hchk, hflip0, hflip1⟩ :=
    parsePlanLine_shape line p hp
  have hmark : mark = ' ' := by
    rcases hmk with h | h
    · exact h
    · exfalso
      rw [h] at hchk
      simp only [decide_eq_true_eq] at hchk
      rw [hunch] at hchk
      exact Bool.noConfusion (hchk ▸ rfl : (false : Bool) = true)
  subst hmark
  have hflipval : flipLine taskId line =
      '-' :: ' ' :: '[' :: 'x' :: ']' :: ' ' :: rest := by
    unfold flipLine
    simp only [hp]
    rw [if_pos (by simp [hid, hunch])]
    rw [hsh]
    rfl
  refine ⟨rest, hsh, hrne, hflipval, ?_, ?_⟩
  · rw [hflipval, hsh]
    rfl
  · rw [hflipval]
    exact hflip1

/-- C3 counterexample: in a document containing a line that ends with a
bare carriage return before its newline, marking task `a` completed
rewrites the file and, because `split(/\r?\n/)` + `join("\n")` absorb
that carriage return into the new separator, line 1 — which is not
`a`'s line (it does not even parse) — is not byte-identical before and
after the write: it was `x\r` and becomes `x`. -/
theorem markPlan_cr_counterexample :
    (markPlanTaskCompleted c3crdoc ("a".data)).2 = true ∧
    parsePlanLine ("x\r".data) = none ∧
    (splitLines c3crdoc)[1]? = some ("x\r".data) ∧
    (splitLines (planDocAfterMark c3crdoc ("a".data)))[1]? = some ("x".data) ∧
    ("x".data : Str) ≠ "x\r".data := by
  refine ⟨by decide, by decide, by decide, by decide, by decide⟩

/-- C3 amended: provided no line of the document ends in a bare
carriage return, marking task `T` completed flips only `T`'s unchecked
checkbox line (`- [ ]` becomes `- [x]`, the parse of the line otherwise
unchanged): when an unchecked line with id `T` exists the file is
rewritten with every other line byte-identical, and when no such line
exists (absent or already checked) the document is not rewritten at
all. -/
theorem markPlanTaskCompleted_frame (raw taskId : Str)
    (hcr : ∀ l ∈ splitLines raw, l.getLast? ≠ some '\r') :
    ((∃ l ∈ splitLines raw, planLineFlips taskId l = true) →
      (markPlanTaskCompleted raw taskId).2 = true ∧
      splitLines (planDocAfterMark raw taskId) =
        (splitLines raw).map (flipLine taskId) ∧
      (∀ (k : Nat) (l : Str), (splitLines raw)[k]? = some l →
        (planLineFlips taskId l = false →
          (splitLines (planDocAfterMark raw taskId))[k]? = some l) ∧
        (planLineFlips taskId l = true →
          ∃ p, parsePlanLine l = some p ∧ p.id = taskId ∧ p.checked = false ∧
            (splitLines (planDocAfterMark raw taskId))[k]? =
              some ("- [x]".data ++ l.drop 5) ∧
            parsePlanLine ("- [x]".data ++ l.drop 5) =
              some { p with checked := true }))) ∧
    ((∀ l ∈ splitLines raw, planLineFlips taskId l = false) →
      planDocAfterMark raw taskId = raw) := by
  constructor
  · intro hex
    obtain ⟨l0, hl0, hflip0⟩ := hex
    have hupd : (markPlanTaskCompleted raw taskId).2 = true :=
      List.any_eq_true.mpr ⟨l0, hl0, hflip0⟩
    have hdoc : planDocAfterMark raw taskId =
        joinLF ((splitLines raw).map (flipLine taskId)) := by
      simp only [planDocAfterMark]
      rw [hupd]
      rfl
    have hmapped : ∀ x ∈ (splitLines raw).map (flipLine taskId),
        '\n' ∉ x ∧ x.getLast? ≠ some '\r' := by
      intro x hx
      obtain ⟨l, hl, hfl⟩ := List.mem_map.1 hx
      subst hfl
      rcases hflips : planLineFlips taskId l with _ | _
      · rw [flipLine_of_not_flips taskId l hflips]
        exact ⟨splitLines_no_nl raw l hl, hcr l hl⟩
      · obtain ⟨p, hp, hid, hunch⟩ := (planLineFlips_iff taskId l).1 hflips
        obtain ⟨rest, hsh, hrne, hflipval, -, -⟩ :=
          flipLine_of_flips taskId l p hp hid hunch
        rw [hflipval]
        constructor
        · intro hmem
          rcases hsh ▸ hl with hl2
          have hnl := splitLines_no_nl raw _ hl
          rw [hsh] at hnl
          rcases List.mem_cons.1 hmem with h | h
          · cases h
          rcases List.mem_cons.1 h with h | h
          · cases h
          rcases List.mem_cons.1 h with h | h
          · cases h
          rcases List.mem_cons.1 h with h | h
          · cases h
          rcases List.mem_cons.1 h with h | h
          · cases h
          rcases List.mem_cons.1 h with h | h
          · cases h
          exact hnl (by
            refine List.mem_cons_of_mem _ ?_
            refine List.mem_cons_of_mem _ ?_
            refine List.mem_cons_of_mem _ ?_
            refine List.mem_cons_of_mem _ ?_
            refine List.mem_cons_of_mem _ ?_
            refine List.mem_cons_of_mem _ ?_
            exact h)
        · have hclast := hcr l hl
          rw [hsh] at hclast
          intro hlast
          refine hclast ?_
          rcases rest with _ | ⟨r0, rs⟩
          · exact absurd rfl hrne
          · rw [getLast?_cons_of_ne_nil _ _ (by simp)] at hlast ⊢
            rw [getLast?_cons_of_ne_nil _ _ (by simp)] at hlast ⊢
            rw [getLast?_cons_of_ne_nil _ _ (by simp)] at hlast ⊢
            rw [getLast?_cons_of_ne_nil _ _ (by simp)] at hlast ⊢
            rw [getLast?_cons_of_ne_nil _ _ (by simp)] at hlast ⊢
            exact hlast
    have hsplit : splitLines (planDocAfterMark raw taskId) =
        (splitLines raw).map (flipLine taskId) := by
      rw [hdoc]
      refine splitLines_joinLF _ ?_ hmapped
      intro hc
      have := congrArg List.length hc
      simp at this
      exact splitLines_ne_nil raw this
    refine ⟨hupd, hsplit, ?_⟩
    intro k l hk
    have hmapk : (splitLines (planDocAfterMark raw taskId))[k]? =
        some (flipLine taskId l) := by
      rw [hsplit, List.getElem?_map, hk]
      rfl
    constructor
    · intro hflips
      rw [hmapk, flipLine_of_not_flips taskId l hflips]
    · intro hflips
      obtain ⟨p, hp, hid, hunch⟩ := (planLineFlips_iff taskId l).1 hflips
      obtain ⟨rest, hsh, hrne, hflipval, hflipdrop, hflipparse⟩ :=
        flipLine_of_flips taskId l p hp hid hunch
      refine ⟨p, hp, hid, hunch, ?_, ?_⟩
      · rw [hmapk, hflipdrop]
      · rw [← hflipdrop]
        exact hflipparse
  · intro hall
    have hfalse : (markPlanTaskCompleted raw taskId).2 = false := by
      show (splitLines raw).any (planLineFlips taskId) = false
      rw [List.any_eq_false]
      intro x hx
      simp [hall x hx]
    simp only [planDocAfterMark]
    rw [hfalse]
    rfl

set_option maxHeartbeats 1000000 in
/-- Witness for C3's amended theorem: marking `alpha` in a two-line
document flips its line and leaves the heading line byte-identical. -/
theorem markPlanTaskCompleted_frame_witness :
    (markPlanTaskCompleted c3doc ("alpha".data)).2 = true ∧
    (splitLines (planDocAfterMark c3doc ("alpha".data)))[1]? =
      some ("# notes".data) ∧
    (splitLines (planDocAfterMark c3doc ("alpha".data)))[0]? =
      some ("- [x] alpha | sdk | Build | Do it".data) := by
  obtain ⟨ha, -⟩ := markPlanTaskCompleted_frame c3doc ("alpha".data) (by decide)
  obtain ⟨hupd, -, hidx⟩ :=
    ha ⟨"- [ ] alpha | sdk | Build | Do it".data, by decide, by decide⟩
  refine ⟨hupd, ?_, ?_⟩
  · exact (hidx 1 ("# notes".data) (by decide)).1 (by decide)
  · obtain ⟨p, -, -, -, heq, -⟩ :=
      (hidx 0 ("- [ ] alpha | sdk | Build | Do it".data) (by decide)).2 (by decide)
    rw [heq]
    decide

/-! ### C5: failure classification and the building-cycle outcome -/

theorem isPre_iff (p s : Str) : isPre p s = true ↔ ∃ b, s = p ++ b := by
  induction p generalizing s with
  | nil =>
    simp [isPre]
  | cons c cs ih =>
    cases s with
    | nil => simp [isPre]
    | cons d ds =>
      simp only [isPre, Bool.and_eq_true, decide_eq_true_eq, ih]
      constructor
      · rintro ⟨rfl, b, rfl⟩
        exact ⟨b, rfl⟩
      · rintro ⟨b, h⟩
        injection h with h1 h2
        exact ⟨h1.symm, b, h2⟩

theorem containsSub_iff (needle hay : Str) :
    containsSub needle hay = true ↔ ∃ a b, hay = a ++ needle ++ b := by
  induction hay with
  | nil =>
    rw [containsSub]
    constructor
    · intro h
      split at h
      · rename_i hpre
        obtain ⟨b, hb⟩ := (isPre_iff _ _).1 hpre
        obtain ⟨hn, hb2⟩ := List.append_eq_nil.1 hb.symm
        exact ⟨[], [], by simp [hn]⟩
      · cases h
    · rintro ⟨a, b, hab⟩
      obtain ⟨hab1, hb⟩ := List.append_eq_nil.1 hab.symm
      obtain ⟨ha, hn⟩ := List.append_eq_nil.1 hab1
      rw [if_pos ((isPre_iff _ _).2 ⟨[], by simp [hn]⟩)]
  | cons c cs ih =>
    rw [containsSub]
    split
    · rename_i hpre
      obtain ⟨b, hb⟩ := (isPre_iff _ _).1 hpre
      simp only [true_iff]
      exact ⟨[], b, by simpa using hb⟩
    · rename_i hpre
      rw [ih]
      constructor
      · rintro ⟨a, b, rfl⟩
        exact ⟨c :: a, b, rfl⟩
      · rintro ⟨a, b, hab⟩
        cases a with
        | nil =>
          exact absurd ((isPre_iff _ _).2 ⟨b, by simpa using hab⟩) hpre
        | cons a0 as =>
          injection hab with h1 h2
          exact ⟨as, b, h2⟩

theorem withEvent_tasks (s : RunState) (ev : SharkEvent) :
    (withEvent s ev).tasks = s.tasks := rfl

theorem withEvent_recentEvents (s : RunState) (ev : SharkEvent) :
    (withEvent s ev).recentEvents = (ev :: s.recentEvents).take 50 := rfl

theorem markAgentTurns_tasks (turns : Option Int) (s : RunState) :
    (markAgentTurns turns s).tasks = s.tasks := by
  cases turns with
  | none => rfl
  | some n =>
    simp only [markAgentTurns]
    split <;> rfl

theorem markAgentTurns_recentEvents (turns : Option Int) (s : RunState) :
    (markAgentTurns turns s).recentEvents = s.recentEvents := by
  cases turns with
  | none => rfl
  | some n =>
    simp only [markAgentTurns]
    split <;> rfl

theorem transitionMode_tasks (eid ts : Str) (s : RunState) (m : SharkMode) :
    (transitionMode eid ts s m).tasks = s.tasks := by
  simp only [transitionMode]
  split <;> rfl

theorem contains_branch (c : Bool) :
    SHARK_MODES.contains
      (if c then SharkMode.planning else SharkMode.operating) = true := by
  cases c <;> decide

theorem syncOne_none_status (tasks : List Task) (entry : PlanTaskEntry) :
    (syncOne tasks none entry).status = entry.task.status := by
  simp only [syncOne]
  cases mapGetLast tasks entry.task.id <;> simp

theorem readPlanEntries_status_retime (raw t1 t2 : Str) (k : Nat) :
    Option.map (fun e => e.task.status) (readPlanEntries raw t1)[k]? =
      Option.map (fun e => e.task.status) (readPlanEntries raw t2)[k]? := by
  rw [readPlanEntries, readPlanEntries, List.getElem?_mapIdx, List.getElem?_mapIdx]
  cases ((splitLines raw).filterMap parsePlanLine)[k]? <;> rfl

theorem buildFinish_tasks (env : BuildEnv) (d2 : Str) (s2 : RunState) (fr : Str) :
    (buildFinish env d2 s2 fr).2.tasks =
      (readPlanEntries d2 (env.time 6)).map (syncOne s2.tasks none) := by
  simp only [buildFinish, notifyEffect]
  rw [transitionMode_tasks, withEvent_tasks, markAgentTurns_tasks, withEvent_tasks]
  rfl

theorem buildFinish_events (env : BuildEnv) (d2 : Str) (s2 : RunState) (fr : Str)
    (ev0 : SharkEvent) (rest : List SharkEvent)
    (h : s2.recentEvents = ev0 :: rest) :
    ((buildFinish env d2 s2 fr).2.recentEvents)[3]? = some ev0 := by
  simp only [buildFinish, notifyEffect]
  rw [transitionMode]
  rw [if_pos (contains_branch _)]
  rw [withEvent_recentEvents, withEvent_recentEvents, markAgentTurns_recentEvents,
    withEvent_recentEvents]
  have hsync : (syncState { s2 with currentTask := none, lastSummary := some fr }
      (readPlanEntries d2 (env.time 6))).recentEvents = ev0 :: rest := h
  rw [hsync]
  simp [List.getElem?_take]

theorem buildFinish_mode_planning (env : BuildEnv) (d2 : Str) (s2 : RunState) (fr : Str)
    (hany : ((buildFinish env d2 s2 fr).2.tasks).any
      (fun task => task.status == .pending) = true) :
    (buildFinish env d2 s2 fr).2.mode = .planning := by
  simp only [buildFinish, notifyEffect] at hany ⊢
  rw [transitionMode_tasks] at hany
  rw [hany]
  rfl

theorem runBuildingStep_selected (env : BuildEnv) (doc : Str) (state : RunState)
    (selId : Option Str) (reason : Str) (eff : RunState → RunState) (output : Str)
    (e0 p0 : PlanTaskEntry) (erest prest : List PlanTaskEntry)
    (hE : readPlanEntries doc (env.time 0) = e0 :: erest)
    (hP : (e0 :: erest).filter (fun e => e.task.status = .pending) = p0 :: prest) :
    runBuildingStep env doc state selId reason eff output =
      (let sel := ((p0 :: prest).find? (fun e => selId = some e.task.id)).getD p0
       let sE := eff (beginTask (env.eid 1) (env.time 2) (env.time 3)
         (markAgentTurns env.selectTurns (syncState state (e0 :: erest))) sel.task)
       let failed := isFailureSummary output
       let ds :=
         if failed then (doc, failTask (env.eid 2) (env.time 4) (env.time 5) sE output)
         else (planDocAfterMark doc sel.task.id,
               completeTask (env.eid 2) (env.time 4) (env.time 5) sE output)
       buildFinish env ds.1 ds.2
         (renderOperatorSummary sel.task output failed reason)) := by
  simp only [runBuildingStep]
  rw [hE]
  dsimp only
  rw [hP]

theorem failTail_facts (env : BuildEnv) (d : Str) (sE : RunState) (output fr : Str)
    (cur : Task) (hcur : sE.currentTask = some cur)
    (k : Nat) (e2 : PlanTaskEntry)
    (hk : (readPlanEntries d (env.time 6))[k]? = some e2)
    (hst : e2.task.status = .pending) :
    (buildFinish env d (failTask (env.eid 2) (env.time 4) (env.time 5) sE output) fr).1 = d ∧
    Option.map (fun ev => (ev.kind, ev.message))
      (((buildFinish env d (failTask (env.eid 2) (env.time 4) (env.time 5) sE output)
          fr).2.recentEvents)[3]?) = some (EventKind.task_failed, output) ∧
    (∃ t ∈ (buildFinish env d (failTask (env.eid 2) (env.time 4) (env.time 5) sE output)
        fr).2.tasks, t.status = TaskStatus.pending) ∧
    (buildFinish env d (failTask (env.eid 2) (env.time 4) (env.time 5) sE output)
        fr).2.mode = SharkMode.planning := by
  have hevs : (failTask (env.eid 2) (env.time 4) (env.time 5) sE output).recentEvents =
      { id := env.eid 2, kind := EventKind.task_failed, message := output,
        timestamp := env.time 5,
        metadata := some [("taskId".data, MetaVal.str cur.id)] } ::
        sE.recentEvents.take 49 := by
    rw [failTask.eq_def, hcur]
    rfl
  refine ⟨rfl, ?_, ?_, ?_⟩
  · rw [buildFinish_events env d _ fr _ _ hevs]
    rfl
  · refine ⟨syncOne (failTask (env.eid 2) (env.time 4) (env.time 5) sE output).tasks
      none e2, ?_, ?_⟩
    · rw [buildFinish_tasks]
      exact List.mem_map_of_mem _ (List.getElem?_mem hk)
    · rw [syncOne_none_status, hst]
  · refine buildFinish_mode_planning env d _ fr ?_
    rw [buildFinish_tasks]
    refine List.any_eq_true.mpr
      ⟨syncOne (failTask (env.eid 2) (env.time 4) (env.time 5) sE output).tasks none e2,
       List.mem_map_of_mem _ (List.getElem?_mem hk), ?_⟩
    simp [syncOne_none_status, hst]

theorem completeTail_facts (env : BuildEnv) (d : Str) (sE : RunState) (output fr : Str)
    (cur : Task) (hcur : sE.currentTask = some cur) :
    Option.map (fun ev => (ev.kind, ev.message))
      (((buildFinish env d (completeTask (env.eid 2) (env.time 4) (env.time 5) sE output)
          fr).2.recentEvents)[3]?) = some (EventKind.task_completed, output) := by
  have hevs : (completeTask (env.eid 2) (env.time 4) (env.time 5) sE output).recentEvents =
      { id := env.eid 2, kind := EventKind.task_completed, message := output,
        timestamp := env.time 5,
        metadata := some [("taskId".data, MetaVal.str cur.id)] } ::
        sE.recentEvents.take 49 := by
    rw [completeTask.eq_def, hcur]
    rfl
  rw [buildFinish_events env d _ fr _ _ hevs]
  rfl

/-- C5: a task execution result string is classified as a failure exactly
when it contains one of the fixed failure-indicating tokens
(case-insensitively: a token occurs as a substring of the lower-cased
result), and in a building pass that selects a task (`hE`, `hP` give
the parsed and pending plan entries, `heff` says the execution effect
leaves `currentTask` in place) the classification decides the outcome:
on failure the plan document is left unchanged (the checkbox stays
unchecked, so the task parses as pending again and stays eligible),
a `task_failed` event carrying the result is logged, a pending task
remains, and the run transitions to `planning` rather than `operating`;
on success the document is rewritten with the selected task's checkbox
marked (any unchecked line with its id makes the mark rewrite the
file) and a `task_completed` event carrying the result is logged.
`failTask` itself is modelled from the spec, as its source is not in
the repository. -/
theorem failure_classification_drives_outcome
    (env : BuildEnv) (doc : Str) (state : RunState) (selId : Option Str)
    (reason : Str) (eff : RunState → RunState) (output : Str)
    (e0 p0 : PlanTaskEntry) (erest prest : List PlanTaskEntry)
    (hE : readPlanEntries doc (env.time 0) = e0 :: erest)
    (hP : (e0 :: erest).filter (fun e => e.task.status = .pending) = p0 :: prest)
    (heff : ∀ s, (eff s).currentTask = s.currentTask) :
    (∀ summary : Str, isFailureSummary summary = true ↔
      ∃ token ∈ failureTokens, ∃ a b, lowerStr summary = a ++ token ++ b) ∧
    (isFailureSummary output = true →
      (runBuildingStep env doc state selId reason eff output).1 = doc ∧
      Option.map (fun ev => (ev.kind, ev.message))
        (((runBuildingStep env doc state selId reason eff output).2.recentEvents)[3]?) =
        some (EventKind.task_failed, output) ∧
      (∃ t ∈ (runBuildingStep env doc state selId reason eff output).2.tasks,
        t.status = TaskStatus.pending) ∧
      (runBuildingStep env doc state selId reason eff output).2.mode =
        SharkMode.planning) ∧
    (isFailureSummary output = false →
      (runBuildingStep env doc state selId reason eff output).1 =
        planDocAfterMark doc
          (((p0 :: prest).find? (fun e => selId = some e.task.id)).getD p0).task.id ∧
      Option.map (fun ev => (ev.kind, ev.message))
        (((runBuildingStep env doc state selId reason eff output).2.recentEvents)[3]?) =
        some (EventKind.task_completed, output) ∧
      ((∃ l ∈ splitLines doc,
          planLineFlips
            (((p0 :: prest).find? (fun e => selId = some e.task.id)).getD p0).task.id l =
            true) →
        (markPlanTaskCompleted doc
          (((p0 :: prest).find? (fun e => selId = some e.task.id)).getD p0).task.id).2 =
          true)) := by
  have hstep := runBuildingStep_selected env doc state selId reason eff output
    e0 p0 erest prest hE hP
  have hcur : (eff (beginTask (env.eid 1) (env.time 2) (env.time 3)
      (markAgentTurns env.selectTurns (syncState state (e0 :: erest)))
      (((p0 :: prest).find? (fun e => selId = some e.task.id)).getD p0).task)).currentTask =
      some { (((p0 :: prest).find? (fun e => selId = some e.task.id)).getD p0).task with
             status := TaskStatus.in_progress, updatedAt := env.time 2 } :=
    (heff _).trans rfl
  have hselmem : ((p0 :: prest).find? (fun e => selId = some e.task.id)).getD p0 ∈
      p0 :: prest := by
    cases hfind : (p0 :: prest).find? (fun e => selId = some e.task.id) with
    | none => exact List.mem_cons_self _ _
    | some x => exact List.mem_of_find?_eq_some hfind
  have hmem1 : ((p0 :: prest).find? (fun e => selId = some e.task.id)).getD p0 ∈
      (e0 :: erest).filter (fun e => e.task.status = .pending) := by
    rw [hP]
    exact hselmem
  obtain ⟨hmem0, hpendb⟩ := List.mem_filter.1 hmem1
  have hpend : (((p0 :: prest).find? (fun e => selId = some e.task.id)).getD p0).task.status =
      TaskStatus.pending := of_decide_eq_true hpendb
  have hmem2 : ((p0 :: prest).find? (fun e => selId = some e.task.id)).getD p0 ∈
      readPlanEntries doc (env.time 0) := by
    rw [hE]
    exact hmem0
  obtain ⟨k, hk0⟩ := List.mem_iff_getElem?.1 hmem2
  obtain ⟨e2, hk6, hst6⟩ : ∃ e2, (readPlanEntries doc (env.time 6))[k]? = some e2 ∧
      e2.task.status = TaskStatus.pending := by
    have hrt := readPlanEntries_status_retime doc (env.time 0) (env.time 6) k
    rw [hk0] at hrt
    cases hk6 : (readPlanEntries doc (env.time 6))[k]? with
    | none =>
      rw [hk6] at hrt
      exact absurd hrt (by simp)
    | some e2 =>
      rw [hk6] at hrt
      refine ⟨e2, rfl, ?_⟩
      have heq : (((p0 :: prest).find? (fun e => selId = some e.task.id)).getD
          p0).task.status = e2.task.status := by
        simp only [Option.map_some'] at hrt
        exact Option.some.inj hrt
      rw [← heq]
      exact hpend
  refine ⟨?_, ?_, ?_⟩
  · intro summary
    simp only [isFailureSummary, List.any_eq_true, containsSub_iff]
  · intro hf
    rw [hstep]
    simp only [hf, eq_self_iff_true, if_true]
    exact failTail_facts env doc _ output _ _ hcur k e2 hk6 hst6
  · intro hf
    rw [hstep]
    simp only [hf, Bool.false_eq_true, if_false]
    refine ⟨rfl, completeTail_facts env _ _ output _ _ hcur, ?_⟩
    rintro ⟨l, hl, hfl⟩
    exact List.any_eq_true.mpr ⟨l, hl, hfl⟩

set_option maxHeartbeats 1000000 in
/-- Witness for C5 on the spec's scenario: the result
`"Browser task failed: timeout"` is classified as a failure, the plan
document is left unchanged, and the run transitions to `planning`. -/
theorem failure_classification_drives_outcome_witness :
    isFailureSummary c5out = true ∧
    (runBuildingStep c5env c5doc stateBoot none ("scenario".data) (fun s => s) c5out).1 =
      c5doc ∧
    (runBuildingStep c5env c5doc stateBoot none ("scenario".data) (fun s => s)
      c5out).2.mode = SharkMode.planning := by
  obtain ⟨-, hfail, -⟩ := failure_classification_drives_outcome c5env c5doc stateBoot
    none ("scenario".data) (fun s => s) c5out c5entry c5entry [] []
    (by decide) (by decide) (fun s => rfl)
  have hf : isFailureSummary c5out = true := by decide
  obtain ⟨h1, -, -, h4⟩ := hfail hf
  exact ⟨hf, h1, h4⟩

end Shark
